import Mathlib

/-!
# Shallow embedding of the SST-HFT-OrderBook core (src/OrderBook/main.cpp)

The C++ order book keeps

* `bids : map<double, PriceLevelData, greater<double>>` — modelled as an
  association list sorted strictly by the side comparator (best price first);
* `asks : map<double, PriceLevelData, less<double>>` — likewise;
* `PriceLevelData = { list<Order*> orders; uint64_t total_quantity; }` — the
  `list` nodes hold pointers into a bump allocator; node/pointer identity is
  modelled by a `nid : Nat` tag drawn from a fresh counter `next_node`
  (each `add_order` allocates exactly one record, so allocation order gives
  every live node a unique id, which is what an iterator handle denotes);
* `order_lookup : unordered_map<uint64_t, OrderLocation>` with
  `OrderLocation = { double price; OrderList::iterator it; bool is_buy; }` —
  modelled as an association list with unique keys; the stored iterator is
  the `nid` of the node it points to;
* all `uint64_t` arithmetic is modulo `2^64` (`add64`, `sub64` below).

Prices are `double` in the source, used only with `<`, `>` and exact `==`;
they are modelled as `Int` (an exact linearly ordered type with decidable
equality), which is faithful for every comparison the source performs.
-/

def W64 : Nat := 2 ^ 64

/-- `uint64_t` addition. -/
def add64 (a b : Nat) : Nat := (a + b) % W64

/-- `uint64_t` subtraction (wrap-around). -/
def sub64 (a b : Nat) : Nat := (a + (W64 - b % W64)) % W64

/-- The `Order` record (`main.cpp` lines 15–24). -/
structure Order where
  order_id : Nat
  is_buy : Bool
  price : Int
  quantity : Nat
  timestamp_ns : Nat
deriving DecidableEq

/-- One `list<Order*>` node: the pool-allocated `Order` together with the
identity (`nid`) of the allocation, which models the pointer / iterator. -/
structure Node where
  nid : Nat
  ord : Order
deriving DecidableEq

/-- `OrderBook::PriceLevelData` (`main.cpp` lines 90–107). -/
structure PriceLevelData where
  orders : List Node := []
  total_quantity : Nat := 0
deriving DecidableEq

/-- Find the node a stored iterator points to. -/
def findNode : List Node → Nat → Option Node
  | [], _ => none
  | n :: rest, i => if n.nid = i then some n else findNode rest i

/-- Erase the node an iterator points to (`orders.erase(it)`). -/
def eraseNode : List Node → Nat → List Node
  | [], _ => []
  | n :: rest, i => if n.nid = i then rest else n :: eraseNode rest i

/-- In-place mutation `order->quantity = q` of the record a stored
iterator points to. -/
def setQty (l : List Node) (i q : Nat) : List Node :=
  l.map fun n => if n.nid = i then { n with ord := { n.ord with quantity := q } } else n

/-- `PriceLevelData::add_order`: push to tail, add quantity to aggregate. -/
def PriceLevelData.add_order (lvl : PriceLevelData) (n : Node) : PriceLevelData :=
  { orders := lvl.orders ++ [n]
    total_quantity := add64 lvl.total_quantity n.ord.quantity }

/-- `PriceLevelData::remove_order`: subtract the pointed-to order's (current)
quantity from the aggregate, then erase the node. -/
def PriceLevelData.remove_order (lvl : PriceLevelData) (i : Nat) : PriceLevelData :=
  { orders := eraseNode lvl.orders i
    total_quantity :=
      sub64 lvl.total_quantity
        (match findNode lvl.orders i with
         | none => 0
         | some n => n.ord.quantity) }

/-- A side of the book: price → level, kept sorted by the side comparator. -/
abbrev Side := List (Int × PriceLevelData)

/-- `map::find` on a side. -/
def sideFind : Side → Int → Option PriceLevelData
  | [], _ => none
  | e :: rest, p => if e.1 = p then some e.2 else sideFind rest p

/-- `map::operator[]` followed by mutating the level: locate the entry with
key `p` (creating a default one at its sorted position if absent, as
`operator[]` does) and apply `f` to it.  `ltb` is the map's comparator. -/
def sideModify (ltb : Int → Int → Bool) (p : Int) (f : PriceLevelData → PriceLevelData) :
    Side → Side
  | [] => [(p, f {})]
  | (q, l) :: rest =>
    if p = q then (q, f l) :: rest
    else if ltb p q then (p, f {}) :: (q, l) :: rest
    else (q, l) :: sideModify ltb p f rest

/-- `map::erase` of a key. -/
def sideErase (p : Int) : Side → Side
  | [] => []
  | (q, l) :: rest => if p = q then rest else (q, l) :: sideErase p rest

/-- `greater<double>`: the bids comparator. -/
def bidLt (a b : Int) : Bool := b < a

/-- `less<double>`: the asks comparator. -/
def askLt (a b : Int) : Bool := a < b

/-- `OrderBook::OrderLocation` (`main.cpp` lines 116–120); `it` is the node
id the stored iterator points to. -/
structure OrderLocation where
  price : Int
  it : Nat
  is_buy : Bool
deriving DecidableEq

/-- The identity → location hash map, as an association list with unique
keys. -/
abbrev Lookup := List (Nat × OrderLocation)

/-- `unordered_map::find`. -/
def lookupFind : Lookup → Nat → Option OrderLocation
  | [], _ => none
  | e :: rest, i => if e.1 = i then some e.2 else lookupFind rest i

/-- `order_lookup[id] = loc`: overwrite if present, append if absent. -/
def lookupInsert (m : Lookup) (i : Nat) (loc : OrderLocation) : Lookup :=
  match m with
  | [] => [(i, loc)]
  | e :: rest => if e.1 = i then (i, loc) :: rest else e :: lookupInsert rest i loc

/-- `unordered_map::erase` of a key. -/
def lookupErase : Lookup → Nat → Lookup
  | [], _ => []
  | e :: rest, i => if e.1 = i then rest else e :: lookupErase rest i

/-- The `OrderBook` state (`main.cpp` lines 85–317).  `next_node` is the
allocation counter of the memory pool, giving fresh node identities. -/
structure OrderBook where
  bids : Side := []
  asks : Side := []
  order_lookup : Lookup := []
  next_node : Nat := 0
deriving DecidableEq

def OrderBook.empty : OrderBook := {}

/-- `OrderBook::add_order` (`main.cpp` lines 134–154): allocate the order,
append it to the level at its price on its side, point the lookup entry at
the freshly appended node. -/
def OrderBook.add_order (bk : OrderBook) (o : Order) : OrderBook :=
  let n : Node := ⟨bk.next_node, o⟩
  let loc : OrderLocation := ⟨o.price, bk.next_node, o.is_buy⟩
  if o.is_buy then
    { bk with
      bids := sideModify bidLt o.price (fun lvl => lvl.add_order n) bk.bids
      order_lookup := lookupInsert bk.order_lookup o.order_id loc
      next_node := bk.next_node + 1 }
  else
    { bk with
      asks := sideModify askLt o.price (fun lvl => lvl.add_order n) bk.asks
      order_lookup := lookupInsert bk.order_lookup o.order_id loc
      next_node := bk.next_node + 1 }

/-- The side part of `OrderBook::cancel_order`: find the level (`none` = the
`side_it == end()` early-false return), `remove_order` through the stored
iterator, erase the level if its list became empty, else leave the mutated
level in place. -/
def sideRemove (ltb : Int → Int → Bool) (s : Side) (p : Int) (i : Nat) : Option Side :=
  match sideFind s p with
  | none => none
  | some lvl =>
    let lvl' := lvl.remove_order i
    some (if lvl'.orders.isEmpty then sideErase p s
          else sideModify ltb p (fun _ => lvl') s)

/-- `OrderBook::cancel_order` (`main.cpp` lines 157–191). -/
def OrderBook.cancel_order (bk : OrderBook) (i : Nat) : Bool × OrderBook :=
  match lookupFind bk.order_lookup i with
  | none => (false, bk)
  | some loc =>
    if loc.is_buy then
      match sideRemove bidLt bk.bids loc.price loc.it with
      | none => (false, bk)
      | some bids' =>
        (true, { bk with bids := bids', order_lookup := lookupErase bk.order_lookup i })
    else
      match sideRemove askLt bk.asks loc.price loc.it with
      | none => (false, bk)
      | some asks' =>
        (true, { bk with asks := asks', order_lookup := lookupErase bk.order_lookup i })

/-- Dereference a stored iterator (`Order* order = *loc.it;`): the record of
the node the location hands us.  In the source this is a direct pointer
dereference; under the book invariants that node sits in the level at
`loc.price` of the side `loc.is_buy`, which is where we read it. -/
def OrderBook.getOrder (bk : OrderBook) (loc : OrderLocation) : Option Order :=
  match sideFind (if loc.is_buy then bk.bids else bk.asks) loc.price with
  | none => none
  | some lvl =>
    match findNode lvl.orders loc.it with
    | none => none
    | some n => some n.ord

/-- `OrderBook::amend_order` (`main.cpp` lines 194–231).  The
`getOrder = none` case is undefined behaviour in the source (dereferencing a
dangling iterator) and unreachable from any state satisfying the book
invariants; it is completed to a no-op `false` here. -/
def OrderBook.amend_order (bk : OrderBook) (i : Nat) (new_price : Int)
    (new_quantity : Nat) : Bool × OrderBook :=
  match lookupFind bk.order_lookup i with
  | none => (false, bk)
  | some loc =>
    match bk.getOrder loc with
    | none => (false, bk)
    | some ord =>
      if ord.price ≠ new_price then
        -- price changes: cancel + add of a fresh order with the same
        -- identity, side and timestamp but the new price/quantity
        let bk1 := (bk.cancel_order i).2
        (true, bk1.add_order ⟨i, ord.is_buy, new_price, new_quantity, ord.timestamp_ns⟩)
      else
        -- quantity-only: mutate the record in place, then
        -- `price_level.update_quantity(order, old_qty)`
        let upd := fun lvl : PriceLevelData =>
          { orders := setQty lvl.orders loc.it new_quantity
            total_quantity := add64 (sub64 lvl.total_quantity ord.quantity) new_quantity }
        let bk' :=
          if loc.is_buy then { bk with bids := sideModify bidLt loc.price upd bk.bids }
          else { bk with asks := sideModify askLt loc.price upd bk.asks }
        if new_quantity = 0 then bk'.cancel_order i else (true, bk')

/-- The snapshot entry struct `PriceLevel` (`main.cpp` lines 26–31). -/
structure PriceLevel where
  price : Int
  total_quantity : Nat
deriving DecidableEq

/-- `OrderBook::get_snapshot` (`main.cpp` lines 234–255): the first `depth`
entries of each side in map iteration order, as (price, aggregate) pairs. -/
def OrderBook.get_snapshot (bk : OrderBook) (depth : Nat) :
    List PriceLevel × List PriceLevel :=
  ((bk.bids.take depth).map fun e => ⟨e.1, e.2.total_quantity⟩,
   (bk.asks.take depth).map fun e => ⟨e.1, e.2.total_quantity⟩)

/-- `OrderBook::get_total_orders`. -/
def OrderBook.get_total_orders (bk : OrderBook) : Nat := bk.order_lookup.length

/-- `OrderBook::get_bid_levels`. -/
def OrderBook.get_bid_levels (bk : OrderBook) : Nat := bk.bids.length

/-- `OrderBook::get_ask_levels`. -/
def OrderBook.get_ask_levels (bk : OrderBook) : Nat := bk.asks.length

/-- The public operations, with raw caller arguments. -/
inductive Op where
  | add (i : Nat) (buy : Bool) (price : Int) (qty ts : Nat)
  | cancel (i : Nat)
  | amend (i : Nat) (newPrice : Int) (newQty : Nat)
deriving DecidableEq

/-- Construct the `Order` argument of `add_order`: the caller's values pass
through `uint64_t` fields, so they are reduced modulo `2^64`. -/
def mkOrder (i : Nat) (buy : Bool) (p : Int) (q ts : Nat) : Order :=
  ⟨i % W64, buy, p, q % W64, ts % W64⟩

/-- One public operation applied to the book (return values discarded). -/
def OrderBook.step (bk : OrderBook) : Op → OrderBook
  | .add i buy p q ts => bk.add_order (mkOrder i buy p q ts)
  | .cancel i => (bk.cancel_order (i % W64)).2
  | .amend i p q => (bk.amend_order (i % W64) p (q % W64)).2

/-- The state reached from the empty book by a sequence of operations. -/
def run (ops : List Op) : OrderBook := ops.foldl OrderBook.step OrderBook.empty

/-- Sum of the quantities of the orders in a level's sequence. -/
def sumQ (l : List Node) : Nat := (l.map fun n => n.ord.quantity).sum

example :
    (run [Op.add 1 true 100 10 0, Op.add 2 true 100 20 1]).get_snapshot 5 =
      ([⟨100, 30⟩], []) := by decide

example :
    ((run [Op.add 1 true 100 10 0]).cancel_order 1).2 =
      { next_node := 1 } := by decide

example :
    ((run [Op.add 1 true 100 10 0, Op.add 2 false 103 5 1]).amend_order 1 101 7).2.get_snapshot 5 =
      ([⟨101, 7⟩], [⟨103, 5⟩]) := by decide

/-! ## Comparator facts -/

/-- The facts the `map` comparators provide (strict total order). -/
structure LtbOrder (ltb : Int → Int → Bool) : Prop where
  irrefl : ∀ a, ltb a a = false
  trans : ∀ a b c, ltb a b = true → ltb b c = true → ltb a c = true
  total : ∀ a b, a ≠ b → ltb a b = true ∨ ltb b a = true

theorem bidLt_order : LtbOrder bidLt := by
  refine ⟨fun a => ?_, fun a b c h1 h2 => ?_, fun a b h => ?_⟩
  · simp [bidLt]
  · simp only [bidLt, decide_eq_true_eq] at *; omega
  · simp only [bidLt, decide_eq_true_eq]; omega

theorem askLt_order : LtbOrder askLt := by
  refine ⟨fun a => ?_, fun a b c h1 h2 => ?_, fun a b h => ?_⟩
  · simp [askLt]
  · simp only [askLt, decide_eq_true_eq] at *; omega
  · simp only [askLt, decide_eq_true_eq]; omega

theorem LtbOrder.asymm {ltb : Int → Int → Bool} (H : LtbOrder ltb) {a b : Int}
    (h : ltb a b = true) : ltb b a = false := by
  by_contra hc
  have hba : ltb b a = true := by
    cases hab : ltb b a with
    | false => exact absurd hab hc
    | true => rfl
  have := H.trans a b a h hba
  rw [H.irrefl a] at this
  exact Bool.false_ne_true this

theorem LtbOrder.ne {ltb : Int → Int → Bool} (H : LtbOrder ltb) {a b : Int}
    (h : ltb a b = true) : a ≠ b := by
  rintro rfl
  rw [H.irrefl a] at h
  exact Bool.false_ne_true h

/-! ## `uint64_t` arithmetic lemmas -/

theorem W64_pos : 0 < W64 := by norm_num [W64]

theorem mod_W64_lt (a : Nat) : a % W64 < W64 := Nat.mod_lt a W64_pos

theorem add64_mod_left (a b : Nat) : add64 (a % W64) b = (a + b) % W64 := by
  simp [add64, Nat.mod_add_mod]

theorem add64_lt (a b : Nat) : add64 a b < W64 := mod_W64_lt _

theorem sub64_lt (a b : Nat) : sub64 a b < W64 := mod_W64_lt _

/-- Wrap-around subtraction agrees with `Nat` subtraction when the
subtrahend fits and does not exceed the represented value. -/
theorem sub64_eq (m q : Nat) (hq : q < W64) (hle : q ≤ m) :
    sub64 (m % W64) q = (m - q) % W64 := by
  have hq' : q % W64 = q := Nat.mod_eq_of_lt hq
  have h1 : m % W64 + (W64 - q) = m % W64 + W64 - q := by omega
  calc sub64 (m % W64) q = (m % W64 + (W64 - q)) % W64 := by rw [sub64, hq']
    _ = (m + (W64 - q)) % W64 := Nat.mod_add_mod ..
    _ = ((m - q) + W64) % W64 := by congr 1; omega
    _ = (m - q) % W64 := Nat.add_mod_right ..

theorem sub64_zero (m : Nat) (hm : m < W64) : sub64 m 0 = m := by
  have : sub64 m 0 = (m + W64) % W64 := by simp [sub64]
  rw [this, Nat.add_mod_right]
  exact Nat.mod_eq_of_lt hm

theorem add64_zero (m : Nat) (hm : m < W64) : add64 m 0 = m := by
  simp [add64, Nat.mod_eq_of_lt hm]

/-! ## Node-list lemmas -/

theorem findNode_eq_some {l : List Node} {i : Nat} {n : Node}
    (h : findNode l i = some n) : n ∈ l ∧ n.nid = i := by
  induction l with
  | nil => simp [findNode] at h
  | cons m rest ih =>
    by_cases hm : m.nid = i
    · simp only [findNode, if_pos hm] at h
      cases h
      exact ⟨List.mem_cons_self .., hm⟩
    · simp only [findNode, if_neg hm] at h
      obtain ⟨h1, h2⟩ := ih h
      exact ⟨List.mem_cons_of_mem _ h1, h2⟩

theorem findNode_eq_none {l : List Node} {i : Nat}
    (h : ∀ n ∈ l, n.nid ≠ i) : findNode l i = none := by
  induction l with
  | nil => rfl
  | cons m rest ih =>
    have hm : m.nid ≠ i := h m (List.mem_cons_self ..)
    simp only [findNode, if_neg hm]
    exact ih fun n hn => h n (List.mem_cons_of_mem _ hn)

theorem findNode_of_mem {l : List Node} {n : Node}
    (hnd : (l.map Node.nid).Nodup) (hmem : n ∈ l) : findNode l n.nid = some n := by
  induction l with
  | nil => simp at hmem
  | cons m rest ih =>
    simp only [List.map_cons, List.nodup_cons] at hnd
    rcases List.mem_cons.1 hmem with h | h
    · subst h
      simp [findNode]
    · have hne : m.nid ≠ n.nid := by
        intro he
        exact hnd.1 (he ▸ List.mem_map_of_mem Node.nid h)
      simp only [findNode, if_neg hne]
      exact ih hnd.2 h

theorem eraseNode_of_not_mem {l : List Node} {i : Nat}
    (h : ∀ n ∈ l, n.nid ≠ i) : eraseNode l i = l := by
  induction l with
  | nil => rfl
  | cons m rest ih =>
    have hm : m.nid ≠ i := h m (List.mem_cons_self ..)
    simp only [eraseNode, if_neg hm]
    rw [ih fun n hn => h n (List.mem_cons_of_mem _ hn)]

theorem eraseNode_sublist (l : List Node) (i : Nat) : (eraseNode l i).Sublist l := by
  induction l with
  | nil => simp [eraseNode]
  | cons m rest ih =>
    by_cases hm : m.nid = i
    · simp only [eraseNode, if_pos hm]
      exact List.sublist_cons_self ..
    · simp only [eraseNode, if_neg hm]
      exact ih.cons₂ m

theorem sumQ_eraseNode {l : List Node} {i : Nat} {n : Node}
    (h : findNode l i = some n) :
    sumQ (eraseNode l i) = sumQ l - n.ord.quantity ∧ n.ord.quantity ≤ sumQ l := by
  induction l with
  | nil => simp [findNode] at h
  | cons m rest ih =>
    by_cases hm : m.nid = i
    · simp only [findNode, if_pos hm] at h
      cases h
      simp only [eraseNode, if_pos hm, sumQ, List.map_cons, List.sum_cons]
      omega
    · simp only [findNode, if_neg hm] at h
      obtain ⟨h1, h2⟩ := ih h
      simp only [eraseNode, if_neg hm, sumQ, List.map_cons, List.sum_cons] at *
      omega

theorem length_eraseNode {l : List Node} {i : Nat} {n : Node}
    (h : findNode l i = some n) : (eraseNode l i).length + 1 = l.length := by
  induction l with
  | nil => simp [findNode] at h
  | cons m rest ih =>
    by_cases hm : m.nid = i
    · simp [eraseNode, if_pos hm]
    · simp only [findNode, if_neg hm] at h
      have := ih h
      simp only [eraseNode, if_neg hm, List.length_cons]
      omega

theorem mem_eraseNode {l : List Node} {i : Nat}
    (hnd : (l.map Node.nid).Nodup) (hfound : (findNode l i).isSome) (m : Node) :
    m ∈ eraseNode l i ↔ m ∈ l ∧ m.nid ≠ i := by
  induction l with
  | nil => simp [findNode] at hfound
  | cons a rest ih =>
    simp only [List.map_cons, List.nodup_cons] at hnd
    by_cases ha : a.nid = i
    · simp only [eraseNode, if_pos ha]
      constructor
      · intro hm
        refine ⟨List.mem_cons_of_mem _ hm, ?_⟩
        intro he
        exact hnd.1 (ha ▸ he ▸ List.mem_map_of_mem Node.nid hm)
      · rintro ⟨hm, hne⟩
        rcases List.mem_cons.1 hm with h | h
        · exact absurd (h ▸ ha) hne
        · exact h
    · simp only [findNode, if_neg ha] at hfound
      simp only [eraseNode, if_neg ha, List.mem_cons]
      constructor
      · rintro (rfl | h)
        · exact ⟨Or.inl rfl, ha⟩
        · obtain ⟨h1, h2⟩ := (ih hnd.2 hfound).1 h
          exact ⟨Or.inr h1, h2⟩
      · rintro ⟨rfl | h1, h2⟩
        · exact Or.inl rfl
        · exact Or.inr ((ih hnd.2 hfound).2 ⟨h1, h2⟩)

theorem map_nid_setQty (l : List Node) (i q : Nat) :
    (setQty l i q).map Node.nid = l.map Node.nid := by
  induction l with
  | nil => rfl
  | cons m rest ih =>
    have hm : (if m.nid = i then { m with ord := { m.ord with quantity := q } } else m).nid
        = m.nid := by
      by_cases h : m.nid = i <;> simp [h]
    calc (setQty (m :: rest) i q).map Node.nid
        = (if m.nid = i then { m with ord := { m.ord with quantity := q } } else m).nid ::
            (setQty rest i q).map Node.nid := rfl
      _ = m.nid :: rest.map Node.nid := by rw [hm, ih]

theorem length_setQty (l : List Node) (i q : Nat) : (setQty l i q).length = l.length :=
  List.length_map ..

theorem setQty_of_not_mem {l : List Node} {i : Nat} (q : Nat)
    (h : ∀ n ∈ l, n.nid ≠ i) : setQty l i q = l := by
  induction l with
  | nil => rfl
  | cons m rest ih =>
    have hm : m.nid ≠ i := h m (List.mem_cons_self ..)
    simp only [setQty, List.map_cons, if_neg hm] at *
    rw [ih fun n hn => h n (List.mem_cons_of_mem _ hn)]

/-! ## Side-index lemmas -/

/-- The key sequence of a side, in map iteration order. -/
def sideKeys (s : Side) : List Int := s.map Prod.fst

/-- The `std::map` representation invariant: keys strictly sorted by the
comparator. -/
def sideSorted (ltb : Int → Int → Bool) (s : Side) : Prop :=
  List.Pairwise (fun a b => ltb a b = true) (sideKeys s)

theorem sideSorted_nil (ltb : Int → Int → Bool) : sideSorted ltb [] := List.Pairwise.nil

theorem sideSorted_cons {ltb : Int → Int → Bool} {e : Int × PriceLevelData} {s : Side} :
    sideSorted ltb (e :: s) ↔
      (∀ k ∈ sideKeys s, ltb e.1 k = true) ∧ sideSorted ltb s := by
  simp [sideSorted, sideKeys, List.pairwise_cons]

theorem sideSorted_nodupKeys {ltb : Int → Int → Bool} (H : LtbOrder ltb) {s : Side}
    (hs : sideSorted ltb s) : (sideKeys s).Nodup := by
  unfold sideSorted at hs
  unfold List.Nodup
  exact hs.imp fun h => H.ne h

theorem sideFind_eq_none_iff {s : Side} {p : Int} :
    sideFind s p = none ↔ ∀ k ∈ sideKeys s, k ≠ p := by
  induction s with
  | nil => simp [sideFind, sideKeys]
  | cons e rest ih =>
    by_cases he : e.1 = p
    · simp [sideFind, if_pos he, sideKeys, he]
    · simp only [sideFind, if_neg he, sideKeys, List.map_cons, List.mem_cons]
      rw [ih]
      simp only [sideKeys]
      constructor
      · intro h k hk
        rcases hk with rfl | hk
        · exact he
        · exact h k hk
      · intro h k hk
        exact h k (Or.inr hk)

theorem mem_of_sideFind {s : Side} {p : Int} {lvl : PriceLevelData}
    (h : sideFind s p = some lvl) : (p, lvl) ∈ s := by
  induction s with
  | nil => simp [sideFind] at h
  | cons e rest ih =>
    obtain ⟨ep, el⟩ := e
    by_cases he : ep = p
    · subst he
      simp only [sideFind, if_pos rfl] at h
      cases h
      exact List.mem_cons_self ..
    · simp only [sideFind, if_neg he] at h
      exact List.mem_cons_of_mem _ (ih h)

theorem sideFind_of_mem {s : Side} {p : Int} {lvl : PriceLevelData}
    (hnd : (sideKeys s).Nodup) (hmem : (p, lvl) ∈ s) : sideFind s p = some lvl := by
  induction s with
  | nil => simp at hmem
  | cons e rest ih =>
    simp only [sideKeys, List.map_cons, List.nodup_cons] at hnd
    rcases List.mem_cons.1 hmem with h | h
    · rw [← h]
      simp [sideFind]
    · have hne : e.1 ≠ p := by
        intro he
        exact hnd.1 (he ▸ List.mem_map_of_mem Prod.fst h)
      simp only [sideFind, if_neg hne]
      exact ih hnd.2 h

theorem sideFind_modify_ne {ltb : Int → Int → Bool} {p q : Int}
    (f : PriceLevelData → PriceLevelData) (s : Side) (hq : q ≠ p) :
    sideFind (sideModify ltb p f s) q = sideFind s q := by
  have hpq : p ≠ q := fun h => hq h.symm
  induction s with
  | nil => simp [sideModify, sideFind, hpq]
  | cons e rest ih =>
    obtain ⟨ep, el⟩ := e
    by_cases hpe : p = ep
    · subst hpe
      simp [sideModify, sideFind, hpq]
    · by_cases hlt : ltb p ep
      · simp only [sideModify, if_neg hpe, if_pos hlt]
        simp [sideFind, hpq]
      · simp only [sideModify, if_neg hpe, if_neg hlt]
        by_cases heq : ep = q
        · simp [sideFind, heq]
        · simp only [sideFind, if_neg heq]
          exact ih

theorem sideFind_modify_self {ltb : Int → Int → Bool} (H : LtbOrder ltb) {p : Int}
    (f : PriceLevelData → PriceLevelData) {s : Side} (hs : sideSorted ltb s) :
    sideFind (sideModify ltb p f s) p = some (f ((sideFind s p).getD {})) := by
  induction s with
  | nil => simp [sideModify, sideFind]
  | cons e rest ih =>
    obtain ⟨ep, el⟩ := e
    rw [sideSorted_cons] at hs
    by_cases hpe : p = ep
    · subst hpe
      simp [sideModify, sideFind]
    · by_cases hlt : ltb p ep
      · have hnone : sideFind ((ep, el) :: rest) p = none := by
          rw [sideFind_eq_none_iff]
          intro k hk
          simp only [sideKeys, List.map_cons, List.mem_cons] at hk
          rcases hk with rfl | hk
          · exact fun h => hpe h.symm
          · intro hkp
            subst hkp
            have h1 := hs.1 k hk
            have h2 := H.trans _ _ _ hlt h1
            rw [H.irrefl] at h2
            exact Bool.false_ne_true h2
        rw [hnone]
        simp only [sideModify, if_neg hpe, if_pos hlt]
        simp [sideFind]
      · simp only [sideModify, if_neg hpe, if_neg hlt]
        have hne : ep ≠ p := fun h => hpe h.symm
        simp only [sideFind, if_neg hne]
        exact ih hs.2

theorem mem_sideKeys_modify {ltb : Int → Int → Bool} {p k : Int}
    {f : PriceLevelData → PriceLevelData} {s : Side}
    (h : k ∈ sideKeys (sideModify ltb p f s)) : k = p ∨ k ∈ sideKeys s := by
  induction s with
  | nil =>
    simp only [sideModify, sideKeys, List.map_cons, List.map_nil, List.mem_singleton] at h
    exact Or.inl h
  | cons e rest ih =>
    obtain ⟨ep, el⟩ := e
    by_cases hpe : p = ep
    · simp only [sideModify, if_pos hpe, sideKeys, List.map_cons, List.mem_cons] at h ⊢
      exact Or.inr h
    · by_cases hlt : ltb p ep
      · simp only [sideModify, if_neg hpe, if_pos hlt, sideKeys, List.map_cons,
          List.mem_cons] at h ⊢
        rcases h with h | h
        · exact Or.inl h
        · exact Or.inr h
      · simp only [sideModify, if_neg hpe, if_neg hlt, sideKeys, List.map_cons,
          List.mem_cons] at h ⊢
        rcases h with h | h
        · exact Or.inr (Or.inl h)
        · rcases ih h with h1 | h1
          · exact Or.inl h1
          · exact Or.inr (Or.inr h1)

theorem sideModify_sorted {ltb : Int → Int → Bool} (H : LtbOrder ltb) {p : Int}
    {f : PriceLevelData → PriceLevelData} {s : Side} (hs : sideSorted ltb s) :
    sideSorted ltb (sideModify ltb p f s) := by
  induction s with
  | nil =>
    simp only [sideModify]
    rw [sideSorted_cons]
    exact ⟨by simp [sideKeys], sideSorted_nil ltb⟩
  | cons e rest ih =>
    obtain ⟨ep, el⟩ := e
    rw [sideSorted_cons] at hs
    by_cases hpe : p = ep
    · simp only [sideModify, if_pos hpe]
      rw [sideSorted_cons]
      exact ⟨hs.1, hs.2⟩
    · by_cases hlt : ltb p ep
      · simp only [sideModify, if_neg hpe, if_pos hlt]
        rw [sideSorted_cons]
        constructor
        · intro k hk
          simp only [sideKeys, List.map_cons, List.mem_cons] at hk
          rcases hk with rfl | hk
          · exact hlt
          · exact H.trans _ _ _ hlt (hs.1 k hk)
        · rw [sideSorted_cons]
          exact hs
      · have hgt : ltb ep p = true := by
          rcases H.total p ep hpe with h | h
          · exact absurd h hlt
          · exact h
        simp only [sideModify, if_neg hpe, if_neg hlt]
        rw [sideSorted_cons]
        constructor
        · intro k hk
          rcases mem_sideKeys_modify hk with rfl | hk
          · exact hgt
          · exact hs.1 k hk
        · exact ih hs.2

theorem sideErase_sublist (p : Int) (s : Side) : (sideErase p s).Sublist s := by
  induction s with
  | nil => simp [sideErase]
  | cons e rest ih =>
    obtain ⟨ep, el⟩ := e
    by_cases hpe : p = ep
    · simp only [sideErase, if_pos hpe]
      exact List.sublist_cons_self ..
    · simp only [sideErase, if_neg hpe]
      exact ih.cons₂ _

theorem sideErase_sorted {ltb : Int → Int → Bool} {p : Int} {s : Side}
    (hs : sideSorted ltb s) : sideSorted ltb (sideErase p s) := by
  unfold sideSorted sideKeys at *
  exact List.Pairwise.sublist ((sideErase_sublist p s).map Prod.fst) hs

theorem sideErase_of_find_none {s : Side} {p : Int}
    (h : sideFind s p = none) : sideErase p s = s := by
  induction s with
  | nil => rfl
  | cons e rest ih =>
    obtain ⟨ep, el⟩ := e
    by_cases he : ep = p
    · simp [sideFind, if_pos he] at h
    · have hpe : p ≠ ep := fun hh => he hh.symm
      simp only [sideFind, if_neg he] at h
      simp only [sideErase, if_neg hpe]
      rw [ih h]

theorem sideFind_erase_ne {s : Side} {p q : Int} (hq : q ≠ p) :
    sideFind (sideErase p s) q = sideFind s q := by
  induction s with
  | nil => rfl
  | cons e rest ih =>
    obtain ⟨ep, el⟩ := e
    by_cases hpe : p = ep
    · subst hpe
      have : p ≠ q := fun h => hq h.symm
      simp [sideErase, sideFind, this]
    · simp only [sideErase, if_neg hpe]
      by_cases heq : ep = q
      · simp [sideFind, heq]
      · simp only [sideFind, if_neg heq]
        exact ih

theorem sideFind_erase_self {s : Side} {p : Int} (hnd : (sideKeys s).Nodup) :
    sideFind (sideErase p s) p = none := by
  induction s with
  | nil => rfl
  | cons e rest ih =>
    obtain ⟨ep, el⟩ := e
    simp only [sideKeys, List.map_cons, List.nodup_cons] at hnd
    by_cases hpe : p = ep
    · subst hpe
      simp only [sideErase, if_pos rfl]
      rw [sideFind_eq_none_iff]
      intro k hk
      intro hkp
      exact hnd.1 (hkp ▸ hk)
    · have hep : ep ≠ p := fun h => hpe h.symm
      simp only [sideErase, if_neg hpe, sideFind, if_neg hep]
      exact ih hnd.2

theorem length_sideErase {s : Side} {p : Int} {lvl : PriceLevelData}
    (h : sideFind s p = some lvl) : (sideErase p s).length + 1 = s.length := by
  induction s with
  | nil => simp [sideFind] at h
  | cons e rest ih =>
    obtain ⟨ep, el⟩ := e
    by_cases he : ep = p
    · have hpe : p = ep := he.symm
      simp [sideErase, if_pos hpe]
    · have hpe : p ≠ ep := fun hh => he hh.symm
      simp only [sideFind, if_neg he] at h
      have := ih h
      simp only [sideErase, if_neg hpe, List.length_cons]
      omega

theorem mem_sideErase {s : Side} {p : Int} (hnd : (sideKeys s).Nodup)
    (e : Int × PriceLevelData) : e ∈ sideErase p s ↔ e ∈ s ∧ e.1 ≠ p := by
  induction s with
  | nil => simp [sideErase]
  | cons a rest ih =>
    obtain ⟨ap, al⟩ := a
    simp only [sideKeys, List.map_cons, List.nodup_cons] at hnd
    by_cases hpa : p = ap
    · subst hpa
      simp only [sideErase, if_pos rfl, List.mem_cons]
      constructor
      · intro hm
        refine ⟨Or.inr hm, ?_⟩
        intro hep
        exact hnd.1 (hep ▸ List.mem_map_of_mem Prod.fst hm)
      · rintro ⟨h1 | h1, h2⟩
        · rw [h1] at h2
          exact absurd rfl h2
        · exact h1
    · simp only [sideErase, if_neg hpa, List.mem_cons]
      rw [ih hnd.2]
      constructor
      · rintro (rfl | ⟨h1, h2⟩)
        · exact ⟨Or.inl rfl, fun h => hpa h.symm⟩
        · exact ⟨Or.inr h1, h2⟩
      · rintro ⟨rfl | h1, h2⟩
        · exact Or.inl rfl
        · exact Or.inr ⟨h1, h2⟩

theorem sideKeys_modify_of_find_some {ltb : Int → Int → Bool} (H : LtbOrder ltb)
    {s : Side} {p : Int} {lvl : PriceLevelData} (hs : sideSorted ltb s)
    (h : sideFind s p = some lvl) (f : PriceLevelData → PriceLevelData) :
    sideKeys (sideModify ltb p f s) = sideKeys s := by
  induction s with
  | nil => simp [sideFind] at h
  | cons e rest ih =>
    obtain ⟨ep, el⟩ := e
    rw [sideSorted_cons] at hs
    by_cases hpe : p = ep
    · simp [sideModify, if_pos hpe, sideKeys]
    · have hep : ep ≠ p := fun hh => hpe hh.symm
      simp only [sideFind, if_neg hep] at h
      have hmem : p ∈ sideKeys rest := by
        have := mem_of_sideFind h
        exact List.mem_map_of_mem Prod.fst this
      by_cases hlt : ltb p ep
      · exfalso
        have h1 := hs.1 p hmem
        have h2 := H.trans _ _ _ hlt h1
        rw [H.irrefl] at h2
        exact Bool.false_ne_true h2
      · have hih := ih hs.2 h
        simp only [sideKeys] at hih
        simp only [sideModify, if_neg hpe, if_neg hlt, sideKeys, List.map_cons]
        rw [hih]

theorem length_sideModify_of_find_some {ltb : Int → Int → Bool} (H : LtbOrder ltb)
    {s : Side} {p : Int} {lvl : PriceLevelData} (hs : sideSorted ltb s)
    (h : sideFind s p = some lvl) (f : PriceLevelData → PriceLevelData) :
    (sideModify ltb p f s).length = s.length := by
  have := sideKeys_modify_of_find_some H hs h f
  have h1 : (sideKeys (sideModify ltb p f s)).length = (sideKeys s).length := by rw [this]
  simpa [sideKeys] using h1

theorem length_sideModify_of_find_none {ltb : Int → Int → Bool}
    {s : Side} {p : Int} (h : sideFind s p = none) (f : PriceLevelData → PriceLevelData) :
    (sideModify ltb p f s).length = s.length + 1 := by
  induction s with
  | nil => rfl
  | cons e rest ih =>
    obtain ⟨ep, el⟩ := e
    by_cases he : ep = p
    · simp [sideFind, if_pos he] at h
    · have hpe : p ≠ ep := fun hh => he hh.symm
      simp only [sideFind, if_neg he] at h
      by_cases hlt : ltb p ep
      · simp [sideModify, if_neg hpe, if_pos hlt]
      · simp only [sideModify, if_neg hpe, if_neg hlt, List.length_cons]
        rw [ih h]

theorem mem_sideModify {ltb : Int → Int → Bool} (H : LtbOrder ltb) {p : Int}
    {f : PriceLevelData → PriceLevelData} {s : Side} (hs : sideSorted ltb s)
    (e : Int × PriceLevelData) :
    e ∈ sideModify ltb p f s ↔
      e = (p, f ((sideFind s p).getD {})) ∨ (e ∈ s ∧ e.1 ≠ p) := by
  induction s with
  | nil => simp [sideModify, sideFind]
  | cons a rest ih =>
    obtain ⟨ap, al⟩ := a
    rw [sideSorted_cons] at hs
    have hnd : (sideKeys ((ap, al) :: rest)).Nodup :=
      sideSorted_nodupKeys H (by rw [sideSorted_cons]; exact hs)
    simp only [sideKeys, List.map_cons, List.nodup_cons] at hnd
    by_cases hpa : p = ap
    · subst hpa
      rw [show sideModify ltb p f ((p, al) :: rest) = (p, f al) :: rest by
        simp [sideModify]]
      rw [show sideFind ((p, al) :: rest) p = some al by simp [sideFind]]
      simp only [Option.getD_some, List.mem_cons]
      constructor
      · rintro (rfl | hm)
        · exact Or.inl rfl
        · refine Or.inr ⟨Or.inr hm, ?_⟩
          intro hep
          exact hnd.1 (hep ▸ List.mem_map_of_mem Prod.fst hm)
      · rintro (rfl | ⟨rfl | h1, h2⟩)
        · exact Or.inl rfl
        · exact absurd rfl h2
        · exact Or.inr h1
    · by_cases hlt : ltb p ap
      · have hnone : sideFind ((ap, al) :: rest) p = none := by
          rw [sideFind_eq_none_iff]
          intro k hk
          simp only [sideKeys, List.map_cons, List.mem_cons] at hk
          rcases hk with rfl | hk
          · exact fun h => hpa h.symm
          · intro hkp
            subst hkp
            have h2 := H.trans _ _ _ hlt (hs.1 k hk)
            rw [H.irrefl] at h2
            exact Bool.false_ne_true h2
        rw [hnone]
        simp only [sideModify, if_neg hpa, if_pos hlt, Option.getD_none, List.mem_cons]
        have hkeys := sideFind_eq_none_iff.1 hnone
        constructor
        · rintro (rfl | rfl | hm)
          · exact Or.inl rfl
          · refine Or.inr ⟨Or.inl rfl, ?_⟩
            intro h
            exact hpa h.symm
          · refine Or.inr ⟨Or.inr hm, ?_⟩
            intro h
            exact hkeys e.1 (List.mem_map_of_mem Prod.fst (List.mem_cons_of_mem _ hm)) h
        · rintro (rfl | ⟨h1 | h1, _⟩)
          · exact Or.inl rfl
          · exact Or.inr (Or.inl h1)
          · exact Or.inr (Or.inr h1)
      · have hap : ap ≠ p := fun hh => hpa hh.symm
        simp only [sideModify, if_neg hpa, if_neg hlt, sideFind, if_neg hap,
          List.mem_cons]
        rw [ih hs.2]
        constructor
        · rintro (rfl | h)
          · exact Or.inr ⟨Or.inl rfl, hap⟩
          · rcases h with h | ⟨h1, h2⟩
            · exact Or.inl h
            · exact Or.inr ⟨Or.inr h1, h2⟩
        · rintro (h | ⟨rfl | h1, h2⟩)
          · exact Or.inr (Or.inl h)
          · exact Or.inl rfl
          · exact Or.inr (Or.inr ⟨h1, h2⟩)

theorem sideModify_sideModify {ltb : Int → Int → Bool} (p : Int)
    (f g : PriceLevelData → PriceLevelData) (s : Side) :
    sideModify ltb p f (sideModify ltb p g s) = sideModify ltb p (fun l => f (g l)) s := by
  induction s with
  | nil => simp [sideModify]
  | cons e rest ih =>
    obtain ⟨ep, el⟩ := e
    by_cases hpe : p = ep
    · subst hpe
      simp [sideModify]
    · by_cases hlt : ltb p ep
      · simp [sideModify, if_neg hpe, if_pos hlt]
      · simp only [sideModify, if_neg hpe, if_neg hlt]
        rw [ih]

theorem sideErase_sideModify {ltb : Int → Int → Bool} (H : LtbOrder ltb) {p : Int}
    {f : PriceLevelData → PriceLevelData} {s : Side} (hs : sideSorted ltb s) :
    sideErase p (sideModify ltb p f s) = sideErase p s := by
  induction s with
  | nil => simp [sideModify, sideErase]
  | cons e rest ih =>
    obtain ⟨ep, el⟩ := e
    rw [sideSorted_cons] at hs
    by_cases hpe : p = ep
    · subst hpe
      simp [sideModify, sideErase]
    · by_cases hlt : ltb p ep
      · have hrest : sideErase p rest = rest := by
          apply sideErase_of_find_none
          rw [sideFind_eq_none_iff]
          intro k hk hkp
          subst hkp
          have h2 := H.trans _ _ _ hlt (hs.1 k hk)
          rw [H.irrefl] at h2
          exact Bool.false_ne_true h2
        simp [sideModify, if_neg hpe, if_pos hlt, sideErase, hpe, hrest]
      · simp only [sideModify, if_neg hpe, if_neg hlt, sideErase, if_neg hpe]
        rw [ih hs.2]


theorem sideModify_cons_self (ltb : Int → Int → Bool) (f : PriceLevelData → PriceLevelData)
    (p : Int) (l : PriceLevelData) (rest : Side) :
    sideModify ltb p f ((p, l) :: rest) = (p, f l) :: rest := by
  simp [sideModify]

theorem sideFind_cons_self (p : Int) (l : PriceLevelData) (rest : Side) :
    sideFind ((p, l) :: rest) p = some l := by
  simp [sideFind]

/-! ## Node-identity bookkeeping across a side -/

/-- All node identities stored on a side, with multiplicity. -/
def sideNids (s : Side) : List Nat :=
  (s.map fun e => e.2.orders.map Node.nid).flatten

theorem sideNids_nil : sideNids [] = [] := rfl

theorem sideNids_cons (e : Int × PriceLevelData) (rest : Side) :
    sideNids (e :: rest) = e.2.orders.map Node.nid ++ sideNids rest := by
  simp [sideNids]

theorem flatten_sublist {α : Type} {L1 L2 : List (List α)} (h : L1.Sublist L2) :
    L1.flatten.Sublist L2.flatten := by
  induction h with
  | slnil => exact List.Sublist.refl _
  | cons a _ ih =>
    simp only [List.flatten_cons]
    exact ih.trans (List.sublist_append_right ..)
  | cons₂ a _ ih =>
    simp only [List.flatten_cons]
    exact List.Sublist.append (List.Sublist.refl a) ih

theorem mem_sideNids {s : Side} {j : Nat} :
    j ∈ sideNids s ↔ ∃ e ∈ s, j ∈ e.2.orders.map Node.nid := by
  unfold sideNids
  rw [List.mem_flatten]
  constructor
  · rintro ⟨l, hl, hj⟩
    obtain ⟨e, he, rfl⟩ := List.mem_map.1 hl
    exact ⟨e, he, hj⟩
  · rintro ⟨e, he, hj⟩
    exact ⟨e.2.orders.map Node.nid, List.mem_map_of_mem _ he, hj⟩

theorem nids_sublist_sideNids {s : Side} {e : Int × PriceLevelData} (hmem : e ∈ s) :
    (e.2.orders.map Node.nid).Sublist (sideNids s) := by
  induction s with
  | nil => simp at hmem
  | cons a rest ih =>
    rw [sideNids_cons]
    rcases List.mem_cons.1 hmem with rfl | hmem
    · exact List.sublist_append_left ..
    · exact (ih hmem).trans (List.sublist_append_right ..)

theorem sideNids_erase_sublist (p : Int) (s : Side) :
    (sideNids (sideErase p s)).Sublist (sideNids s) :=
  flatten_sublist ((sideErase_sublist p s).map _)

theorem sideNids_modify_sublist {ltb : Int → Int → Bool} (H : LtbOrder ltb)
    {s : Side} {p : Int} {lvl : PriceLevelData} {f : PriceLevelData → PriceLevelData}
    (hs : sideSorted ltb s) (h : sideFind s p = some lvl)
    (hf : ((f lvl).orders.map Node.nid).Sublist (lvl.orders.map Node.nid)) :
    (sideNids (sideModify ltb p f s)).Sublist (sideNids s) := by
  induction s with
  | nil => simp [sideFind] at h
  | cons e rest ih =>
    obtain ⟨ep, el⟩ := e
    rw [sideSorted_cons] at hs
    by_cases hpe : p = ep
    · subst hpe
      rw [sideFind_cons_self] at h
      cases h
      rw [sideModify_cons_self, sideNids_cons, sideNids_cons]
      exact List.Sublist.append hf (List.Sublist.refl _)
    · have hep : ep ≠ p := fun hh => hpe hh.symm
      simp only [sideFind, if_neg hep] at h
      by_cases hlt : ltb p ep
      · exfalso
        have hmem : p ∈ sideKeys rest :=
          List.mem_map_of_mem Prod.fst (mem_of_sideFind h)
        have h2 := H.trans _ _ _ hlt (hs.1 p hmem)
        rw [H.irrefl] at h2
        exact Bool.false_ne_true h2
      · simp only [sideModify, if_neg hpe, if_neg hlt]
        rw [sideNids_cons, sideNids_cons]
        exact List.Sublist.append (List.Sublist.refl _) (ih hs.2 h)

theorem sideNids_modify_eq {ltb : Int → Int → Bool} (H : LtbOrder ltb)
    {s : Side} {p : Int} {lvl : PriceLevelData} {f : PriceLevelData → PriceLevelData}
    (hs : sideSorted ltb s) (h : sideFind s p = some lvl)
    (hf : (f lvl).orders.map Node.nid = lvl.orders.map Node.nid) :
    sideNids (sideModify ltb p f s) = sideNids s := by
  induction s with
  | nil => simp [sideFind] at h
  | cons e rest ih =>
    obtain ⟨ep, el⟩ := e
    rw [sideSorted_cons] at hs
    by_cases hpe : p = ep
    · subst hpe
      rw [sideFind_cons_self] at h
      cases h
      rw [sideModify_cons_self, sideNids_cons, sideNids_cons, hf]
    · have hep : ep ≠ p := fun hh => hpe hh.symm
      simp only [sideFind, if_neg hep] at h
      by_cases hlt : ltb p ep
      · exfalso
        have hmem : p ∈ sideKeys rest :=
          List.mem_map_of_mem Prod.fst (mem_of_sideFind h)
        have h2 := H.trans _ _ _ hlt (hs.1 p hmem)
        rw [H.irrefl] at h2
        exact Bool.false_ne_true h2
      · simp only [sideModify, if_neg hpe, if_neg hlt]
        rw [sideNids_cons, sideNids_cons, ih hs.2 h]

theorem sideNids_modify_add {ltb : Int → Int → Bool} (p : Int) (nd : Node) (s : Side) :
    (sideNids (sideModify ltb p (fun l => l.add_order nd) s)).Perm
      (nd.nid :: sideNids s) := by
  induction s with
  | nil =>
    rw [show sideModify ltb p (fun l => l.add_order nd) [] = [(p, PriceLevelData.add_order {} nd)]
      from rfl]
    rw [sideNids_cons, sideNids_nil]
    simp [PriceLevelData.add_order]
  | cons e rest ih =>
    obtain ⟨ep, el⟩ := e
    by_cases hpe : p = ep
    · subst hpe
      rw [sideModify_cons_self, sideNids_cons, sideNids_cons]
      simp only [PriceLevelData.add_order, List.map_append]
      rw [List.append_assoc]
      have : (List.map Node.nid [nd]) ++ sideNids rest = nd.nid :: sideNids rest := rfl
      rw [this]
      exact List.perm_middle
    · by_cases hlt : ltb p ep
      · simp only [sideModify, if_neg hpe, if_pos hlt]
        rw [sideNids_cons, sideNids_cons]
        simp [PriceLevelData.add_order]
      · simp only [sideModify, if_neg hpe, if_neg hlt]
        rw [sideNids_cons, sideNids_cons]
        refine (ih.append_left _).trans ?_
        exact List.perm_middle

/-! ## Lookup-index lemmas -/

/-- The identities currently present in the Location Index. -/
def lookupKeys (m : Lookup) : List Nat := m.map Prod.fst

theorem lookupFind_eq_none_iff {m : Lookup} {i : Nat} :
    lookupFind m i = none ↔ ∀ k ∈ lookupKeys m, k ≠ i := by
  induction m with
  | nil => simp [lookupFind, lookupKeys]
  | cons e rest ih =>
    by_cases he : e.1 = i
    · simp [lookupFind, if_pos he, lookupKeys, he]
    · simp only [lookupFind, if_neg he, lookupKeys, List.map_cons, List.mem_cons]
      rw [ih]
      simp only [lookupKeys]
      constructor
      · intro h k hk
        rcases hk with rfl | hk
        · exact he
        · exact h k hk
      · intro h k hk
        exact h k (Or.inr hk)

theorem mem_of_lookupFind {m : Lookup} {i : Nat} {loc : OrderLocation}
    (h : lookupFind m i = some loc) : (i, loc) ∈ m := by
  induction m with
  | nil => simp [lookupFind] at h
  | cons e rest ih =>
    obtain ⟨k, l⟩ := e
    by_cases he : k = i
    · subst he
      simp only [lookupFind, if_pos rfl] at h
      cases h
      exact List.mem_cons_self ..
    · simp only [lookupFind, if_neg he] at h
      exact List.mem_cons_of_mem _ (ih h)

theorem lookupFind_of_mem {m : Lookup} {i : Nat} {loc : OrderLocation}
    (hnd : (lookupKeys m).Nodup) (hmem : (i, loc) ∈ m) : lookupFind m i = some loc := by
  induction m with
  | nil => simp at hmem
  | cons e rest ih =>
    simp only [lookupKeys, List.map_cons, List.nodup_cons] at hnd
    rcases List.mem_cons.1 hmem with h | h
    · rw [← h]
      simp [lookupFind]
    · have hne : e.1 ≠ i := by
        intro he
        exact hnd.1 (he ▸ List.mem_map_of_mem Prod.fst h)
      simp only [lookupFind, if_neg hne]
      exact ih hnd.2 h

theorem lookupFind_insert_self (m : Lookup) (i : Nat) (loc : OrderLocation) :
    lookupFind (lookupInsert m i loc) i = some loc := by
  induction m with
  | nil => simp [lookupInsert, lookupFind]
  | cons e rest ih =>
    by_cases he : e.1 = i
    · simp [lookupInsert, if_pos he, lookupFind]
    · simp only [lookupInsert, if_neg he, lookupFind, if_neg he]
      exact ih

theorem lookupFind_insert_ne (m : Lookup) {i j : Nat} (loc : OrderLocation)
    (hne : j ≠ i) : lookupFind (lookupInsert m i loc) j = lookupFind m j := by
  have hij : i ≠ j := fun h => hne h.symm
  induction m with
  | nil => simp [lookupInsert, lookupFind, hij]
  | cons e rest ih =>
    by_cases he : e.1 = i
    · have hej : e.1 ≠ j := by rw [he]; exact hij
      simp [lookupInsert, if_pos he, lookupFind, if_neg hej, hij]
    · simp only [lookupInsert, if_neg he, lookupFind]
      by_cases hej : e.1 = j
      · simp [if_pos hej]
      · simp only [if_neg hej]
        exact ih

theorem lookupKeys_insert_of_find_some {m : Lookup} {i : Nat} {loc0 : OrderLocation}
    (h : lookupFind m i = some loc0) (loc : OrderLocation) :
    lookupKeys (lookupInsert m i loc) = lookupKeys m := by
  induction m with
  | nil => simp [lookupFind] at h
  | cons e rest ih =>
    by_cases he : e.1 = i
    · simp [lookupInsert, if_pos he, lookupKeys, he]
    · simp only [lookupFind, if_neg he] at h
      have hih := ih h
      simp only [lookupKeys] at hih
      simp only [lookupInsert, if_neg he, lookupKeys, List.map_cons]
      rw [hih]

theorem lookupKeys_insert_of_find_none {m : Lookup} {i : Nat}
    (h : lookupFind m i = none) (loc : OrderLocation) :
    lookupKeys (lookupInsert m i loc) = lookupKeys m ++ [i] := by
  induction m with
  | nil => simp [lookupInsert, lookupKeys]
  | cons e rest ih =>
    by_cases he : e.1 = i
    · simp [lookupFind, if_pos he] at h
    · simp only [lookupFind, if_neg he] at h
      have hih := ih h
      simp only [lookupKeys] at hih
      simp only [lookupInsert, if_neg he, lookupKeys, List.map_cons, List.cons_append]
      rw [hih]

theorem lookupKeys_insert_nodup {m : Lookup} {i : Nat} (loc : OrderLocation)
    (hnd : (lookupKeys m).Nodup) : (lookupKeys (lookupInsert m i loc)).Nodup := by
  cases h : lookupFind m i with
  | none =>
    rw [lookupKeys_insert_of_find_none h loc]
    rw [List.nodup_append]
    refine ⟨hnd, List.nodup_singleton i, ?_⟩
    intro k hk
    simp only [List.mem_singleton]
    exact lookupFind_eq_none_iff.1 h k hk
  | some loc0 =>
    rw [lookupKeys_insert_of_find_some h loc]
    exact hnd

theorem lookupErase_of_find_none {m : Lookup} {i : Nat}
    (h : lookupFind m i = none) : lookupErase m i = m := by
  induction m with
  | nil => rfl
  | cons e rest ih =>
    by_cases he : e.1 = i
    · simp [lookupFind, if_pos he] at h
    · simp only [lookupFind, if_neg he] at h
      simp only [lookupErase, if_neg he]
      rw [ih h]

theorem lookupErase_sublist (m : Lookup) (i : Nat) : (lookupErase m i).Sublist m := by
  induction m with
  | nil => simp [lookupErase]
  | cons e rest ih =>
    by_cases he : e.1 = i
    · simp only [lookupErase, if_pos he]
      exact List.sublist_cons_self ..
    · simp only [lookupErase, if_neg he]
      exact ih.cons₂ _

theorem lookupKeys_erase_nodup {m : Lookup} (i : Nat)
    (hnd : (lookupKeys m).Nodup) : (lookupKeys (lookupErase m i)).Nodup :=
  List.Nodup.sublist ((lookupErase_sublist m i).map Prod.fst) hnd

theorem lookupFind_erase_ne {m : Lookup} {i j : Nat} (hne : j ≠ i) :
    lookupFind (lookupErase m i) j = lookupFind m j := by
  induction m with
  | nil => rfl
  | cons e rest ih =>
    by_cases he : e.1 = i
    · have hej : e.1 ≠ j := by rw [he]; exact fun h => hne h.symm
      simp [lookupErase, if_pos he, lookupFind, if_neg hej]
    · simp only [lookupErase, if_neg he, lookupFind]
      by_cases hej : e.1 = j
      · simp [if_pos hej]
      · simp only [if_neg hej]
        exact ih

theorem lookupFind_erase_self {m : Lookup} {i : Nat} (hnd : (lookupKeys m).Nodup) :
    lookupFind (lookupErase m i) i = none := by
  induction m with
  | nil => rfl
  | cons e rest ih =>
    simp only [lookupKeys, List.map_cons, List.nodup_cons] at hnd
    by_cases he : e.1 = i
    · simp only [lookupErase, if_pos he]
      rw [lookupFind_eq_none_iff]
      intro k hk hki
      exact hnd.1 (he ▸ hki ▸ hk)
    · simp only [lookupErase, if_neg he, lookupFind, if_neg he]
      exact ih hnd.2

theorem length_lookupErase {m : Lookup} {i : Nat} {loc : OrderLocation}
    (h : lookupFind m i = some loc) : (lookupErase m i).length + 1 = m.length := by
  induction m with
  | nil => simp [lookupFind] at h
  | cons e rest ih =>
    by_cases he : e.1 = i
    · simp [lookupErase, if_pos he]
    · simp only [lookupFind, if_neg he] at h
      have := ih h
      simp only [lookupErase, if_neg he, List.length_cons]
      omega

theorem length_lookupInsert_of_find_some {m : Lookup} {i : Nat} {loc0 : OrderLocation}
    (h : lookupFind m i = some loc0) (loc : OrderLocation) :
    (lookupInsert m i loc).length = m.length := by
  have := lookupKeys_insert_of_find_some h loc
  have h1 : (lookupKeys (lookupInsert m i loc)).length = (lookupKeys m).length := by rw [this]
  simpa [lookupKeys] using h1

theorem mem_lookupErase {m : Lookup} {i : Nat} (hnd : (lookupKeys m).Nodup)
    (e : Nat × OrderLocation) : e ∈ lookupErase m i ↔ e ∈ m ∧ e.1 ≠ i := by
  induction m with
  | nil => simp [lookupErase]
  | cons a rest ih =>
    simp only [lookupKeys, List.map_cons, List.nodup_cons] at hnd
    by_cases ha : a.1 = i
    · simp only [lookupErase, if_pos ha, List.mem_cons]
      constructor
      · intro hm
        refine ⟨Or.inr hm, ?_⟩
        intro hei
        exact hnd.1 (ha ▸ hei ▸ List.mem_map_of_mem Prod.fst hm)
      · rintro ⟨h1 | h1, h2⟩
        · rw [h1] at h2
          exact absurd ha h2
        · exact h1
    · simp only [lookupErase, if_neg ha, List.mem_cons]
      rw [ih hnd.2]
      constructor
      · rintro (rfl | ⟨h1, h2⟩)
        · exact ⟨Or.inl rfl, ha⟩
        · exact ⟨Or.inr h1, h2⟩
      · rintro ⟨rfl | h1, h2⟩
        · exact Or.inl rfl
        · exact Or.inr ⟨h1, h2⟩

theorem mem_lookupInsert {m : Lookup} {i : Nat} {loc : OrderLocation}
    (hnd : (lookupKeys m).Nodup) (e : Nat × OrderLocation) :
    e ∈ lookupInsert m i loc ↔ e = (i, loc) ∨ (e ∈ m ∧ e.1 ≠ i) := by
  induction m with
  | nil => simp [lookupInsert]
  | cons a rest ih =>
    simp only [lookupKeys, List.map_cons, List.nodup_cons] at hnd
    by_cases ha : a.1 = i
    · simp only [lookupInsert, if_pos ha, List.mem_cons]
      constructor
      · rintro (rfl | hm)
        · exact Or.inl rfl
        · refine Or.inr ⟨Or.inr hm, ?_⟩
          intro hei
          exact hnd.1 (ha ▸ hei ▸ List.mem_map_of_mem Prod.fst hm)
      · rintro (rfl | ⟨rfl | h1, h2⟩)
        · exact Or.inl rfl
        · exact absurd ha h2
        · exact Or.inr h1
    · simp only [lookupInsert, if_neg ha, List.mem_cons]
      rw [ih hnd.2]
      constructor
      · rintro (rfl | h)
        · exact Or.inr ⟨Or.inl rfl, ha⟩
        · rcases h with h | ⟨h1, h2⟩
          · exact Or.inl h
          · exact Or.inr ⟨Or.inr h1, h2⟩
      · rintro (h | ⟨rfl | h1, h2⟩)
        · exact Or.inr (Or.inl h)
        · exact Or.inl rfl
        · exact Or.inr (Or.inr ⟨h1, h2⟩)

/-! ## Aggregate-sum lemmas -/

theorem sumQ_nil : sumQ [] = 0 := rfl

theorem sumQ_append (l1 l2 : List Node) : sumQ (l1 ++ l2) = sumQ l1 + sumQ l2 := by
  simp [sumQ]

theorem eraseNode_setQty {l : List Node} {i : Nat} (q : Nat)
    (hnd : (l.map Node.nid).Nodup) : eraseNode (setQty l i q) i = eraseNode l i := by
  induction l with
  | nil => rfl
  | cons m rest ih =>
    simp only [List.map_cons, List.nodup_cons] at hnd
    by_cases hm : m.nid = i
    · have hrest : ∀ n ∈ rest, n.nid ≠ i := by
        intro n hn he
        exact hnd.1 (hm ▸ he ▸ List.mem_map_of_mem Node.nid hn)
      calc eraseNode (setQty (m :: rest) i q) i
          = eraseNode ({ m with ord := { m.ord with quantity := q } } :: setQty rest i q) i := by
            simp [setQty, hm]
        _ = setQty rest i q := by simp [eraseNode, hm]
        _ = rest := setQty_of_not_mem q hrest
        _ = eraseNode (m :: rest) i := by simp [eraseNode, hm]
    · calc eraseNode (setQty (m :: rest) i q) i
          = eraseNode (m :: setQty rest i q) i := by simp [setQty, hm]
        _ = m :: eraseNode (setQty rest i q) i := by simp [eraseNode, hm]
        _ = m :: eraseNode rest i := by rw [ih hnd.2]
        _ = eraseNode (m :: rest) i := by simp [eraseNode, hm]

theorem findNode_setQty_self {l : List Node} {i : Nat} {n : Node} (q : Nat)
    (h : findNode l i = some n) :
    findNode (setQty l i q) i = some { n with ord := { n.ord with quantity := q } } := by
  induction l with
  | nil => simp [findNode] at h
  | cons m rest ih =>
    by_cases hm : m.nid = i
    · simp only [findNode, if_pos hm] at h
      cases h
      simp [setQty, findNode, hm]
    · simp only [findNode, if_neg hm] at h
      calc findNode (setQty (m :: rest) i q) i
          = findNode (m :: setQty rest i q) i := by simp [setQty, hm]
        _ = findNode (setQty rest i q) i := by simp [findNode, hm]
        _ = some { n with ord := { n.ord with quantity := q } } := ih h

theorem sumQ_setQty {l : List Node} {i : Nat} {n : Node} (q : Nat)
    (hnd : (l.map Node.nid).Nodup) (h : findNode l i = some n) :
    sumQ (setQty l i q) = sumQ l - n.ord.quantity + q ∧ n.ord.quantity ≤ sumQ l := by
  induction l with
  | nil => simp [findNode] at h
  | cons m rest ih =>
    simp only [List.map_cons, List.nodup_cons] at hnd
    by_cases hm : m.nid = i
    · simp only [findNode, if_pos hm] at h
      injection h with h
      subst h
      have hrest : ∀ n ∈ rest, n.nid ≠ i := by
        intro n hn he
        exact hnd.1 (hm ▸ he ▸ List.mem_map_of_mem Node.nid hn)
      have heq : setQty (m :: rest) i q
          = { m with ord := { m.ord with quantity := q } } :: rest := by
        simp only [setQty, List.map_cons, if_pos hm]
        rw [show List.map _ rest = setQty rest i q from rfl, setQty_of_not_mem q hrest]
      rw [heq]
      simp only [sumQ, List.map_cons, List.sum_cons]
      constructor
      · omega
      · omega
    · simp only [findNode, if_neg hm] at h
      obtain ⟨h1, h2⟩ := ih hnd.2 h
      have heq : setQty (m :: rest) i q = m :: setQty rest i q := by
        simp [setQty, hm]
      rw [heq]
      simp only [sumQ, List.map_cons, List.sum_cons] at *
      omega

/-! ## The book invariant -/

/-- What every live price level satisfies: non-empty FIFO sequence, the
aggregate is the sum of the recorded quantities (as a 64-bit value), and
every node carries the level's price and side with an in-range quantity. -/
def levelInv (buy : Bool) (p : Int) (lvl : PriceLevelData) : Prop :=
  lvl.orders ≠ [] ∧
  lvl.total_quantity = sumQ lvl.orders % W64 ∧
  ∀ n ∈ lvl.orders, n.ord.price = p ∧ n.ord.is_buy = buy ∧ n.ord.quantity < W64

/-- The side a location refers to. -/
def OrderBook.sideOf (bk : OrderBook) (buy : Bool) : Side :=
  if buy then bk.bids else bk.asks

/-- The comparator of a side. -/
def ltbOf (buy : Bool) : Int → Int → Bool :=
  if buy then bidLt else askLt

theorem ltbOf_order (buy : Bool) : LtbOrder (ltbOf buy) := by
  cases buy
  · exact askLt_order
  · exact bidLt_order

/-- All node identities living in the book. -/
def bookNids (bk : OrderBook) : List Nat := sideNids bk.bids ++ sideNids bk.asks

/-- The inductive invariant of `OrderBook`, established by `OrderBook.empty`
and preserved by every public operation. -/
structure BookInv (bk : OrderBook) : Prop where
  bids_sorted : sideSorted bidLt bk.bids
  asks_sorted : sideSorted askLt bk.asks
  bids_levels : ∀ e ∈ bk.bids, levelInv true e.1 e.2
  asks_levels : ∀ e ∈ bk.asks, levelInv false e.1 e.2
  nids_nodup : (bookNids bk).Nodup
  nids_lt : ∀ j ∈ bookNids bk, j < bk.next_node
  lookup_nodup : (lookupKeys bk.order_lookup).Nodup
  lookup_valid : ∀ e ∈ bk.order_lookup,
    ∃ lvl n, sideFind (bk.sideOf e.2.is_buy) e.2.price = some lvl ∧
      n ∈ lvl.orders ∧ n.nid = e.2.it
  lookup_inj : ∀ e ∈ bk.order_lookup, ∀ e' ∈ bk.order_lookup,
    e.2.it = e'.2.it → e = e'

theorem inv_empty : BookInv OrderBook.empty := by
  refine ⟨?_, ?_, ?_, ?_, ?_, ?_, ?_, ?_, ?_⟩ <;>
    simp [OrderBook.empty, sideSorted, sideKeys, bookNids, sideNids, lookupKeys,
      List.Pairwise.nil]

/-- The side invariants, bundled per side so bids and asks can be handled
by one argument. -/
theorem inv_side {bk : OrderBook} (h : BookInv bk) (buy : Bool) :
    sideSorted (ltbOf buy) (bk.sideOf buy) ∧
      (∀ e ∈ bk.sideOf buy, levelInv buy e.1 e.2) ∧
      (sideNids (bk.sideOf buy)).Sublist (bookNids bk) := by
  cases buy
  · exact ⟨h.asks_sorted, h.asks_levels, List.sublist_append_right ..⟩
  · exact ⟨h.bids_sorted, h.bids_levels, List.sublist_append_left ..⟩

/-- Node identities inside one level are distinct, given the global bound. -/
theorem level_nids_nodup {bk : OrderBook} (h : BookInv bk) {buy : Bool} {p : Int}
    {lvl : PriceLevelData} (hf : sideFind (bk.sideOf buy) p = some lvl) :
    (lvl.orders.map Node.nid).Nodup := by
  have hmem := mem_of_sideFind hf
  have hsub := (nids_sublist_sideNids hmem).trans (inv_side h buy).2.2
  exact List.Nodup.sublist hsub h.nids_nodup

/-! ## Level-invariant preservation helpers -/

theorem levelInv_add_order {buy : Bool} {p : Int} {lvl : PriceLevelData} {nd : Node}
    (h2 : lvl.total_quantity = sumQ lvl.orders % W64)
    (h3 : ∀ n ∈ lvl.orders, n.ord.price = p ∧ n.ord.is_buy = buy ∧ n.ord.quantity < W64)
    (hp : nd.ord.price = p) (hb : nd.ord.is_buy = buy) (hq : nd.ord.quantity < W64) :
    levelInv buy p (lvl.add_order nd) := by
  refine ⟨by simp [PriceLevelData.add_order], ?_, ?_⟩
  · simp only [PriceLevelData.add_order]
    rw [h2, add64_mod_left, sumQ_append]
    simp [sumQ]
  · intro n hn
    simp only [PriceLevelData.add_order, List.mem_append, List.mem_singleton] at hn
    rcases hn with hn | rfl
    · exact h3 n hn
    · exact ⟨hp, hb, hq⟩

theorem levelInv_remove {buy : Bool} {p : Int} {lvl : PriceLevelData} {i : Nat} {n : Node}
    (h : levelInv buy p lvl) (hfind : findNode lvl.orders i = some n)
    (hne : eraseNode lvl.orders i ≠ []) :
    levelInv buy p (lvl.remove_order i) := by
  obtain ⟨h1, h2, h3⟩ := h
  obtain ⟨he, hle⟩ := sumQ_eraseNode hfind
  have hnq : n.ord.quantity < W64 := (h3 n (findNode_eq_some hfind).1).2.2
  refine ⟨hne, ?_, ?_⟩
  · simp only [PriceLevelData.remove_order, hfind]
    rw [h2, sub64_eq _ _ hnq hle, he]
  · intro m hm
    exact h3 m ((eraseNode_sublist lvl.orders i).subset hm)

theorem levelInv_update {buy : Bool} {p : Int} {lvl : PriceLevelData} {i q : Nat} {n : Node}
    (h : levelInv buy p lvl) (hnd : (lvl.orders.map Node.nid).Nodup)
    (hfind : findNode lvl.orders i = some n) (hq : q < W64) :
    levelInv buy p
      { orders := setQty lvl.orders i q
        total_quantity := add64 (sub64 lvl.total_quantity n.ord.quantity) q } := by
  obtain ⟨h1, h2, h3⟩ := h
  obtain ⟨hs, hle⟩ := sumQ_setQty q hnd hfind
  have hnq : n.ord.quantity < W64 := (h3 n (findNode_eq_some hfind).1).2.2
  refine ⟨?_, ?_, ?_⟩
  · cases ho : lvl.orders with
    | nil => exact absurd ho h1
    | cons a rest => simp [setQty, ho]
  · simp only
    rw [h2, sub64_eq _ _ hnq hle, add64_mod_left, hs]
  · intro m hm
    obtain ⟨m0, hm0, rfl⟩ := List.mem_map.1 hm
    by_cases hmi : m0.nid = i
    · simp only [if_pos hmi]
      obtain ⟨hp0, hb0, _⟩ := h3 m0 hm0
      exact ⟨hp0, hb0, hq⟩
    · simp only [if_neg hmi]
      exact h3 m0 hm0

theorem sideLevels_modify_add {ltb : Int → Int → Bool} (H : LtbOrder ltb) {buy : Bool}
    {s : Side} {p : Int} {nd : Node} (hs : sideSorted ltb s)
    (hlev : ∀ e ∈ s, levelInv buy e.1 e.2)
    (hp : nd.ord.price = p) (hb : nd.ord.is_buy = buy) (hq : nd.ord.quantity < W64) :
    ∀ e ∈ sideModify ltb p (fun l => l.add_order nd) s, levelInv buy e.1 e.2 := by
  intro e he
  rcases (mem_sideModify H hs e).1 he with rfl | ⟨hmem, _⟩
  · cases hf : sideFind s p with
    | none =>
      simp only [Option.getD_none]
      exact levelInv_add_order (by simp [sumQ]) (by simp) hp hb hq
    | some lvl =>
      simp only [Option.getD_some]
      obtain ⟨_, h2, h3⟩ := hlev (p, lvl) (mem_of_sideFind hf)
      exact levelInv_add_order h2 h3 hp hb hq
  · exact hlev e hmem

theorem sideLevels_modify_replace {ltb : Int → Int → Bool} (H : LtbOrder ltb) {buy : Bool}
    {s : Side} {p : Int} {lvl' : PriceLevelData} (hs : sideSorted ltb s)
    (hlev : ∀ e ∈ s, levelInv buy e.1 e.2) (hlvl' : levelInv buy p lvl') :
    ∀ e ∈ sideModify ltb p (fun _ => lvl') s, levelInv buy e.1 e.2 := by
  intro e he
  rcases (mem_sideModify H hs e).1 he with rfl | ⟨hmem, _⟩
  · exact hlvl'
  · exact hlev e hmem

theorem sideLevels_erase {buy : Bool} {s : Side} {p : Int}
    (hlev : ∀ e ∈ s, levelInv buy e.1 e.2) :
    ∀ e ∈ sideErase p s, levelInv buy e.1 e.2 :=
  fun e he => hlev e ((sideErase_sublist p s).subset he)

/-! ## Operation characterizations -/

theorem add_order_buy (bk : OrderBook) (o : Order) (hb : o.is_buy = true) :
    bk.add_order o = { bk with
      bids := sideModify bidLt o.price (fun lvl => lvl.add_order ⟨bk.next_node, o⟩) bk.bids
      order_lookup :=
        lookupInsert bk.order_lookup o.order_id ⟨o.price, bk.next_node, o.is_buy⟩
      next_node := bk.next_node + 1 } := by
  simp [OrderBook.add_order, hb]

theorem add_order_sell (bk : OrderBook) (o : Order) (hb : o.is_buy = false) :
    bk.add_order o = { bk with
      asks := sideModify askLt o.price (fun lvl => lvl.add_order ⟨bk.next_node, o⟩) bk.asks
      order_lookup :=
        lookupInsert bk.order_lookup o.order_id ⟨o.price, bk.next_node, o.is_buy⟩
      next_node := bk.next_node + 1 } := by
  simp [OrderBook.add_order, hb]

theorem sideRemove_eq {ltb : Int → Int → Bool} {s : Side} {p : Int} {i : Nat}
    {lvl : PriceLevelData} (hf : sideFind s p = some lvl) :
    sideRemove ltb s p i = some (if (lvl.remove_order i).orders.isEmpty
      then sideErase p s else sideModify ltb p (fun _ => lvl.remove_order i) s) := by
  simp [sideRemove, hf]

theorem cancel_order_buy {bk : OrderBook} {i : Nat} {loc : OrderLocation} {s' : Side}
    (hl : lookupFind bk.order_lookup i = some loc) (hb : loc.is_buy = true)
    (hr : sideRemove bidLt bk.bids loc.price loc.it = some s') :
    bk.cancel_order i =
      (true, { bk with bids := s', order_lookup := lookupErase bk.order_lookup i }) := by
  simp [OrderBook.cancel_order, hl, hb, hr]

theorem cancel_order_sell {bk : OrderBook} {i : Nat} {loc : OrderLocation} {s' : Side}
    (hl : lookupFind bk.order_lookup i = some loc) (hb : loc.is_buy = false)
    (hr : sideRemove askLt bk.asks loc.price loc.it = some s') :
    bk.cancel_order i =
      (true, { bk with asks := s', order_lookup := lookupErase bk.order_lookup i }) := by
  simp [OrderBook.cancel_order, hl, hb, hr]

theorem cancel_order_none {bk : OrderBook} {i : Nat}
    (hl : lookupFind bk.order_lookup i = none) : bk.cancel_order i = (false, bk) := by
  simp [OrderBook.cancel_order, hl]

theorem getOrder_eq {bk : OrderBook} {loc : OrderLocation} {lvl : PriceLevelData} {n : Node}
    (hf : sideFind (bk.sideOf loc.is_buy) loc.price = some lvl)
    (hn : findNode lvl.orders loc.it = some n) : bk.getOrder loc = some n.ord := by
  unfold OrderBook.getOrder
  rw [show (if loc.is_buy then bk.bids else bk.asks) = bk.sideOf loc.is_buy from rfl, hf]
  show (match findNode lvl.orders loc.it with
        | none => none
        | some n => some n.ord) = some n.ord
  rw [hn]

/-- Resolve a location through the invariant: it denotes a unique node, in
the level at its price on its side, carrying matching fields. -/
theorem inv_lookup_node {bk : OrderBook} (h : BookInv bk) {i : Nat} {loc : OrderLocation}
    (hl : lookupFind bk.order_lookup i = some loc) :
    ∃ lvl n, sideFind (bk.sideOf loc.is_buy) loc.price = some lvl ∧
      findNode lvl.orders loc.it = some n ∧ n ∈ lvl.orders ∧ n.nid = loc.it ∧
      n.ord.price = loc.price ∧ n.ord.is_buy = loc.is_buy ∧ n.ord.quantity < W64 := by
  obtain ⟨lvl, n, hf, hmem, hnid⟩ := h.lookup_valid (i, loc) (mem_of_lookupFind hl)
  have hnd := level_nids_nodup h hf
  have hfind := findNode_of_mem hnd hmem
  have hlev := (inv_side h loc.is_buy).2.1 (loc.price, lvl) (mem_of_sideFind hf)
  have hfields := hlev.2.2 n hmem
  exact ⟨lvl, n, hf, hnid ▸ hfind, hmem, hnid, hfields.1, hfields.2.1, hfields.2.2⟩

/-- Every location stored in the lookup refers to an already-allocated node. -/
theorem inv_it_lt {bk : OrderBook} (h : BookInv bk) {e : Nat × OrderLocation}
    (he : e ∈ bk.order_lookup) : e.2.it < bk.next_node := by
  obtain ⟨lvl, n, hf, hmem, hnid⟩ := h.lookup_valid e he
  apply h.nids_lt
  rw [← hnid]
  have h1 : n.nid ∈ sideNids (bk.sideOf e.2.is_buy) :=
    mem_sideNids.2 ⟨(e.2.price, lvl), mem_of_sideFind hf, List.mem_map_of_mem Node.nid hmem⟩
  exact (inv_side h e.2.is_buy).2.2.subset h1

/-! ## Invariant preservation -/

theorem inv_add {bk : OrderBook} (h : BookInv bk) {o : Order} (hq : o.quantity < W64) :
    BookInv (bk.add_order o) := by
  have hfresh : bk.next_node ∉ bookNids bk := fun hmem => absurd (h.nids_lt _ hmem) (by omega)
  cases hb : o.is_buy
  case false =>
    rw [add_order_sell bk o hb]
    have hperm : (sideNids (sideModify askLt o.price
          (fun lvl => lvl.add_order ⟨bk.next_node, o⟩) bk.asks)).Perm
        (bk.next_node :: sideNids bk.asks) := sideNids_modify_add o.price _ bk.asks
    refine ⟨h.bids_sorted, sideModify_sorted askLt_order h.asks_sorted, h.bids_levels,
      sideLevels_modify_add askLt_order h.asks_sorted h.asks_levels rfl hb hq, ?_, ?_, ?_, ?_, ?_⟩
    · show (sideNids bk.bids ++ sideNids (sideModify askLt o.price _ bk.asks)).Nodup
      have hperm2 := hperm.append_left (sideNids bk.bids)
      rw [hperm2.nodup_iff]
      have hmid : (sideNids bk.bids ++ bk.next_node :: sideNids bk.asks).Perm
          (bk.next_node :: bookNids bk) := List.perm_middle
      rw [hmid.nodup_iff, List.nodup_cons]
      exact ⟨hfresh, h.nids_nodup⟩
    · intro j hj
      show j < bk.next_node + 1
      have := ((hperm.append_left (sideNids bk.bids)).mem_iff).1 hj
      have hmid : (sideNids bk.bids ++ bk.next_node :: sideNids bk.asks).Perm
          (bk.next_node :: bookNids bk) := List.perm_middle
      rw [hmid.mem_iff, List.mem_cons] at this
      rcases this with rfl | hmem
      · omega
      · have := h.nids_lt j hmem
        omega
    · exact lookupKeys_insert_nodup _ h.lookup_nodup
    · intro e he
      rcases (mem_lookupInsert h.lookup_nodup e).1 he with rfl | ⟨hmem, _⟩
      · show ∃ lvl n, sideFind
          ((OrderBook.mk bk.bids (sideModify askLt o.price _ bk.asks) _ _).sideOf o.is_buy)
            o.price = some lvl ∧ n ∈ lvl.orders ∧ n.nid = bk.next_node
        rw [hb]
        refine ⟨_, ⟨bk.next_node, o⟩,
          sideFind_modify_self askLt_order _ h.asks_sorted, ?_, rfl⟩
        simp [PriceLevelData.add_order]
      · obtain ⟨lvl, nn, hf, hm, hnid⟩ := h.lookup_valid e hmem
        cases hbe : e.2.is_buy
        case true =>
          rw [hbe] at hf
          exact ⟨lvl, nn, hf, hm, hnid⟩
        case false =>
          rw [hbe] at hf
          show ∃ lvl n, sideFind (sideModify askLt o.price _ bk.asks) e.2.price = some lvl
            ∧ n ∈ lvl.orders ∧ n.nid = e.2.it
          by_cases hpe : e.2.price = o.price
          · rw [hpe]
            rw [hpe] at hf
            refine ⟨_, nn, sideFind_modify_self askLt_order _ h.asks_sorted, ?_, hnid⟩
            have hf2 : sideFind bk.asks o.price = some lvl := hf
            rw [hf2]
            simp only [Option.getD_some, PriceLevelData.add_order, List.mem_append]
            exact Or.inl hm
          · exact ⟨lvl, nn, by rw [sideFind_modify_ne _ _ hpe]; exact hf, hm, hnid⟩
    · intro e he e' he' hit
      rcases (mem_lookupInsert h.lookup_nodup e).1 he with rfl | ⟨hmem, _⟩ <;>
        rcases (mem_lookupInsert h.lookup_nodup e').1 he' with rfl | ⟨hmem', _⟩
      · rfl
      · exact absurd (hit ▸ inv_it_lt h hmem') (by simp)
      · exact absurd (hit ▸ inv_it_lt h hmem) (by simp [hit])
      · exact h.lookup_inj e hmem e' hmem' hit
  case true =>
    rw [add_order_buy bk o hb]
    have hperm : (sideNids (sideModify bidLt o.price
          (fun lvl => lvl.add_order ⟨bk.next_node, o⟩) bk.bids)).Perm
        (bk.next_node :: sideNids bk.bids) := sideNids_modify_add o.price _ bk.bids
    refine ⟨sideModify_sorted bidLt_order h.bids_sorted, h.asks_sorted,
      sideLevels_modify_add bidLt_order h.bids_sorted h.bids_levels rfl hb hq,
      h.asks_levels, ?_, ?_, ?_, ?_, ?_⟩
    · show (sideNids (sideModify bidLt o.price _ bk.bids) ++ sideNids bk.asks).Nodup
      have hperm2 := hperm.append_right (sideNids bk.asks)
      rw [hperm2.nodup_iff, List.cons_append, List.nodup_cons]
      exact ⟨hfresh, h.nids_nodup⟩
    · intro j hj
      show j < bk.next_node + 1
      have := ((hperm.append_right (sideNids bk.asks)).mem_iff).1 hj
      rw [List.cons_append, List.mem_cons] at this
      rcases this with rfl | hmem
      · omega
      · have := h.nids_lt j hmem
        omega
    · exact lookupKeys_insert_nodup _ h.lookup_nodup
    · intro e he
      rcases (mem_lookupInsert h.lookup_nodup e).1 he with rfl | ⟨hmem, _⟩
      · show ∃ lvl n, sideFind
          ((OrderBook.mk (sideModify bidLt o.price _ bk.bids) bk.asks _ _).sideOf o.is_buy)
            o.price = some lvl ∧ n ∈ lvl.orders ∧ n.nid = bk.next_node
        rw [hb]
        refine ⟨_, ⟨bk.next_node, o⟩,
          sideFind_modify_self bidLt_order _ h.bids_sorted, ?_, rfl⟩
        simp [PriceLevelData.add_order]
      · obtain ⟨lvl, nn, hf, hm, hnid⟩ := h.lookup_valid e hmem
        cases hbe : e.2.is_buy
        case false =>
          rw [hbe] at hf
          exact ⟨lvl, nn, hf, hm, hnid⟩
        case true =>
          rw [hbe] at hf
          show ∃ lvl n, sideFind (sideModify bidLt o.price _ bk.bids) e.2.price = some lvl
            ∧ n ∈ lvl.orders ∧ n.nid = e.2.it
          by_cases hpe : e.2.price = o.price
          · rw [hpe]
            rw [hpe] at hf
            refine ⟨_, nn, sideFind_modify_self bidLt_order _ h.bids_sorted, ?_, hnid⟩
            have hf2 : sideFind bk.bids o.price = some lvl := hf
            rw [hf2]
            simp only [Option.getD_some, PriceLevelData.add_order, List.mem_append]
            exact Or.inl hm
          · exact ⟨lvl, nn, by rw [sideFind_modify_ne _ _ hpe]; exact hf, hm, hnid⟩
    · intro e he e' he' hit
      rcases (mem_lookupInsert h.lookup_nodup e).1 he with rfl | ⟨hmem, _⟩ <;>
        rcases (mem_lookupInsert h.lookup_nodup e').1 he' with rfl | ⟨hmem', _⟩
      · rfl
      · exact absurd (hit ▸ inv_it_lt h hmem') (by simp)
      · exact absurd (hit ▸ inv_it_lt h hmem) (by simp [hit])
      · exact h.lookup_inj e hmem e' hmem' hit

theorem orders_singleton {lvl : PriceLevelData} {i : Nat} {n : Node}
    (hfind : findNode lvl.orders i = some n)
    (hemp : (eraseNode lvl.orders i).isEmpty = true) : lvl.orders = [n] := by
  have h1 := length_eraseNode hfind
  have h2 : eraseNode lvl.orders i = [] := by
    cases he : eraseNode lvl.orders i with
    | nil => rfl
    | cons a l =>
      rw [he] at hemp
      simp [List.isEmpty] at hemp
  rw [h2] at h1
  simp only [List.length_nil, Nat.zero_add] at h1
  obtain ⟨a, ha⟩ := List.length_eq_one.1 h1.symm
  have hmem := (findNode_eq_some hfind).1
  rw [ha] at hmem
  simp only [List.mem_singleton] at hmem
  rw [ha, hmem]

theorem survivor_ne {bk : OrderBook} (h : BookInv bk) {i : Nat} {loc : OrderLocation}
    (hl : lookupFind bk.order_lookup i = some loc)
    {e' : Nat × OrderLocation} (hmem' : e' ∈ bk.order_lookup) (hne : e'.1 ≠ i) :
    e'.2.it ≠ loc.it := by
  intro heq
  have := h.lookup_inj e' hmem' (i, loc) (mem_of_lookupFind hl) heq
  exact hne (by rw [this])

theorem inv_cancel {bk : OrderBook} (h : BookInv bk) (i : Nat) :
    BookInv (bk.cancel_order i).2 := by
  cases hl : lookupFind bk.order_lookup i with
  | none =>
    rw [cancel_order_none hl]
    exact h
  | some loc =>
    obtain ⟨lvl, n, hf, hfind, hmem, hnid, hprice, hbuy, hqlt⟩ := inv_lookup_node h hl
    have hlnd := level_nids_nodup h hf
    cases hb : loc.is_buy
    case true =>
      rw [hb] at hf
      have hf2 : sideFind bk.bids loc.price = some lvl := hf
      have hlev : levelInv true loc.price lvl :=
        h.bids_levels (loc.price, lvl) (mem_of_sideFind hf2)
      by_cases hemp : (lvl.remove_order loc.it).orders.isEmpty = true
      · have hr : sideRemove bidLt bk.bids loc.price loc.it
            = some (sideErase loc.price bk.bids) := by
          rw [sideRemove_eq hf2, if_pos hemp]
        rw [cancel_order_buy hl hb hr]
        have hsingle : lvl.orders = [n] := orders_singleton hfind hemp
        refine ⟨sideErase_sorted h.bids_sorted, h.asks_sorted,
          sideLevels_erase h.bids_levels, h.asks_levels, ?_, ?_, ?_, ?_, ?_⟩
        · exact List.Nodup.sublist
            (List.Sublist.append (sideNids_erase_sublist loc.price bk.bids)
              (List.Sublist.refl _)) h.nids_nodup
        · intro j hj
          exact h.nids_lt j
            ((List.Sublist.append (sideNids_erase_sublist loc.price bk.bids)
              (List.Sublist.refl _)).subset hj)
        · exact lookupKeys_erase_nodup i h.lookup_nodup
        · intro e' he'
          obtain ⟨hmem', hne'⟩ := (mem_lookupErase h.lookup_nodup e').1 he'
          obtain ⟨lvl', n', hf', hm', hnid'⟩ := h.lookup_valid e' hmem'
          by_cases hbe : e'.2.is_buy = true
          case neg =>
            have hbf : e'.2.is_buy = false := by
              revert hbe
              cases e'.2.is_buy <;> simp
            rw [hbf] at hf'
            rw [hbf]
            exact ⟨lvl', n', hf', hm', hnid'⟩
          case pos =>
            rw [hbe] at hf'
            rw [hbe]
            have hf2' : sideFind bk.bids e'.2.price = some lvl' := hf'
            by_cases hpe : e'.2.price = loc.price
            · exfalso
              rw [hpe] at hf2'
              have hll : lvl' = lvl := Option.some.inj (hf2'.symm.trans hf2)
              rw [hll, hsingle] at hm'
              simp only [List.mem_singleton] at hm'
              have : e'.2.it = loc.it := by rw [← hnid', hm', hnid]
              exact survivor_ne h hl hmem' hne' this
            · refine ⟨lvl', n', ?_, hm', hnid'⟩
              show sideFind (sideErase loc.price bk.bids) e'.2.price = some lvl'
              rw [sideFind_erase_ne hpe]
              exact hf2'
        · intro e' he' e'' he''
          exact h.lookup_inj e' ((lookupErase_sublist _ _).subset he')
            e'' ((lookupErase_sublist _ _).subset he'')
      · have hr : sideRemove bidLt bk.bids loc.price loc.it
            = some (sideModify bidLt loc.price (fun _ => lvl.remove_order loc.it) bk.bids) := by
          rw [sideRemove_eq hf2, if_neg hemp]
        rw [cancel_order_buy hl hb hr]
        have hne0 : eraseNode lvl.orders loc.it ≠ [] := by
          intro hc
          apply hemp
          show (eraseNode lvl.orders loc.it).isEmpty = true
          rw [hc]
          rfl
        have hlev' : levelInv true loc.price (lvl.remove_order loc.it) :=
          levelInv_remove hlev hfind hne0
        refine ⟨sideModify_sorted bidLt_order h.bids_sorted, h.asks_sorted,
          sideLevels_modify_replace bidLt_order h.bids_sorted h.bids_levels hlev',
          h.asks_levels, ?_, ?_, ?_, ?_, ?_⟩
        · exact List.Nodup.sublist
            (List.Sublist.append
              (sideNids_modify_sublist bidLt_order h.bids_sorted hf2
                ((eraseNode_sublist lvl.orders loc.it).map Node.nid))
              (List.Sublist.refl _)) h.nids_nodup
        · intro j hj
          exact h.nids_lt j
            ((List.Sublist.append
              (sideNids_modify_sublist bidLt_order h.bids_sorted hf2
                ((eraseNode_sublist lvl.orders loc.it).map Node.nid))
              (List.Sublist.refl _)).subset hj)
        · exact lookupKeys_erase_nodup i h.lookup_nodup
        · intro e' he'
          obtain ⟨hmem', hne'⟩ := (mem_lookupErase h.lookup_nodup e').1 he'
          obtain ⟨lvl', n', hf', hm', hnid'⟩ := h.lookup_valid e' hmem'
          by_cases hbe : e'.2.is_buy = true
          case neg =>
            have hbf : e'.2.is_buy = false := by
              revert hbe
              cases e'.2.is_buy <;> simp
            rw [hbf] at hf'
            rw [hbf]
            exact ⟨lvl', n', hf', hm', hnid'⟩
          case pos =>
            rw [hbe] at hf'
            rw [hbe]
            have hf2' : sideFind bk.bids e'.2.price = some lvl' := hf'
            by_cases hpe : e'.2.price = loc.price
            · rw [hpe] at hf2'
              have hll : lvl' = lvl := Option.some.inj (hf2'.symm.trans hf2)
              refine ⟨lvl.remove_order loc.it, n', ?_, ?_, hnid'⟩
              · show sideFind (sideModify bidLt loc.price _ bk.bids) e'.2.price
                  = some (lvl.remove_order loc.it)
                rw [hpe]
                exact sideFind_modify_self bidLt_order _ h.bids_sorted
              · show n' ∈ eraseNode lvl.orders loc.it
                refine (mem_eraseNode hlnd (by rw [hfind]; rfl) n').2 ⟨?_, ?_⟩
                · rw [← hll]
                  exact hm'
                · rw [hnid']
                  exact survivor_ne h hl hmem' hne'
            · refine ⟨lvl', n', ?_, hm', hnid'⟩
              show sideFind (sideModify bidLt loc.price _ bk.bids) e'.2.price = some lvl'
              rw [sideFind_modify_ne _ _ hpe]
              exact hf2'
        · intro e' he' e'' he''
          exact h.lookup_inj e' ((lookupErase_sublist _ _).subset he')
            e'' ((lookupErase_sublist _ _).subset he'')
    case false =>
      rw [hb] at hf
      have hf2 : sideFind bk.asks loc.price = some lvl := hf
      have hlev : levelInv false loc.price lvl :=
        h.asks_levels (loc.price, lvl) (mem_of_sideFind hf2)
      by_cases hemp : (lvl.remove_order loc.it).orders.isEmpty = true
      · have hr : sideRemove askLt bk.asks loc.price loc.it
            = some (sideErase loc.price bk.asks) := by
          rw [sideRemove_eq hf2, if_pos hemp]
        rw [cancel_order_sell hl hb hr]
        have hsingle : lvl.orders = [n] := orders_singleton hfind hemp
        refine ⟨h.bids_sorted, sideErase_sorted h.asks_sorted, h.bids_levels,
          sideLevels_erase h.asks_levels, ?_, ?_, ?_, ?_, ?_⟩
        · exact List.Nodup.sublist
            (List.Sublist.append (List.Sublist.refl _)
              (sideNids_erase_sublist loc.price bk.asks)) h.nids_nodup
        · intro j hj
          exact h.nids_lt j
            ((List.Sublist.append (List.Sublist.refl _)
              (sideNids_erase_sublist loc.price bk.asks)).subset hj)
        · exact lookupKeys_erase_nodup i h.lookup_nodup
        · intro e' he'
          obtain ⟨hmem', hne'⟩ := (mem_lookupErase h.lookup_nodup e').1 he'
          obtain ⟨lvl', n', hf', hm', hnid'⟩ := h.lookup_valid e' hmem'
          by_cases hbe : e'.2.is_buy = true
          case pos =>
            rw [hbe] at hf'
            rw [hbe]
            exact ⟨lvl', n', hf', hm', hnid'⟩
          case neg =>
            have hbf : e'.2.is_buy = false := by
              revert hbe
              cases e'.2.is_buy <;> simp
            rw [hbf] at hf'
            rw [hbf]
            have hf2' : sideFind bk.asks e'.2.price = some lvl' := hf'
            by_cases hpe : e'.2.price = loc.price
            · exfalso
              rw [hpe] at hf2'
              have hll : lvl' = lvl := Option.some.inj (hf2'.symm.trans hf2)
              rw [hll, hsingle] at hm'
              simp only [List.mem_singleton] at hm'
              have : e'.2.it = loc.it := by rw [← hnid', hm', hnid]
              exact survivor_ne h hl hmem' hne' this
            · refine ⟨lvl', n', ?_, hm', hnid'⟩
              show sideFind (sideErase loc.price bk.asks) e'.2.price = some lvl'
              rw [sideFind_erase_ne hpe]
              exact hf2'
        · intro e' he' e'' he''
          exact h.lookup_inj e' ((lookupErase_sublist _ _).subset he')
            e'' ((lookupErase_sublist _ _).subset he'')
      · have hr : sideRemove askLt bk.asks loc.price loc.it
            = some (sideModify askLt loc.price (fun _ => lvl.remove_order loc.it) bk.asks) := by
          rw [sideRemove_eq hf2, if_neg hemp]
        rw [cancel_order_sell hl hb hr]
        have hne0 : eraseNode lvl.orders loc.it ≠ [] := by
          intro hc
          apply hemp
          show (eraseNode lvl.orders loc.it).isEmpty = true
          rw [hc]
          rfl
        have hlev' : levelInv false loc.price (lvl.remove_order loc.it) :=
          levelInv_remove hlev hfind hne0
        refine ⟨h.bids_sorted, sideModify_sorted askLt_order h.asks_sorted, h.bids_levels,
          sideLevels_modify_replace askLt_order h.asks_sorted h.asks_levels hlev',
          ?_, ?_, ?_, ?_, ?_⟩
        · exact List.Nodup.sublist
            (List.Sublist.append (List.Sublist.refl _)
              (sideNids_modify_sublist askLt_order h.asks_sorted hf2
                ((eraseNode_sublist lvl.orders loc.it).map Node.nid))) h.nids_nodup
        · intro j hj
          exact h.nids_lt j
            ((List.Sublist.append (List.Sublist.refl _)
              (sideNids_modify_sublist askLt_order h.asks_sorted hf2
                ((eraseNode_sublist lvl.orders loc.it).map Node.nid))).subset hj)
        · exact lookupKeys_erase_nodup i h.lookup_nodup
        · intro e' he'
          obtain ⟨hmem', hne'⟩ := (mem_lookupErase h.lookup_nodup e').1 he'
          obtain ⟨lvl', n', hf', hm', hnid'⟩ := h.lookup_valid e' hmem'
          by_cases hbe : e'.2.is_buy = true
          case pos =>
            rw [hbe] at hf'
            rw [hbe]
            exact ⟨lvl', n', hf', hm', hnid'⟩
          case neg =>
            have hbf : e'.2.is_buy = false := by
              revert hbe
              cases e'.2.is_buy <;> simp
            rw [hbf] at hf'
            rw [hbf]
            have hf2' : sideFind bk.asks e'.2.price = some lvl' := hf'
            by_cases hpe : e'.2.price = loc.price
            · rw [hpe] at hf2'
              have hll : lvl' = lvl := Option.some.inj (hf2'.symm.trans hf2)
              refine ⟨lvl.remove_order loc.it, n', ?_, ?_, hnid'⟩
              · show sideFind (sideModify askLt loc.price _ bk.asks) e'.2.price
                  = some (lvl.remove_order loc.it)
                rw [hpe]
                exact sideFind_modify_self askLt_order _ h.asks_sorted
              · show n' ∈ eraseNode lvl.orders loc.it
                refine (mem_eraseNode hlnd (by rw [hfind]; rfl) n').2 ⟨?_, ?_⟩
                · rw [← hll]
                  exact hm'
                · rw [hnid']
                  exact survivor_ne h hl hmem' hne'
            · refine ⟨lvl', n', ?_, hm', hnid'⟩
              show sideFind (sideModify askLt loc.price _ bk.asks) e'.2.price = some lvl'
              rw [sideFind_modify_ne _ _ hpe]
              exact hf2'
        · intro e' he' e'' he''
          exact h.lookup_inj e' ((lookupErase_sublist _ _).subset he')
            e'' ((lookupErase_sublist _ _).subset he'')

/-- The level mutation performed by the quantity-only amend path:
`order->quantity = q` followed by `update_quantity(order, oldq)`. -/
def updLevel (it q oldq : Nat) (lvl : PriceLevelData) : PriceLevelData :=
  { orders := setQty lvl.orders it q
    total_quantity := add64 (sub64 lvl.total_quantity oldq) q }

theorem amend_order_none {bk : OrderBook} {i : Nat} (p : Int) (q : Nat)
    (hl : lookupFind bk.order_lookup i = none) : bk.amend_order i p q = (false, bk) := by
  simp [OrderBook.amend_order, hl]

theorem amend_order_price_change {bk : OrderBook} {i : Nat} {loc : OrderLocation}
    {ord : Order} {p : Int} (q : Nat)
    (hl : lookupFind bk.order_lookup i = some loc) (hget : bk.getOrder loc = some ord)
    (hp : ord.price ≠ p) :
    bk.amend_order i p q =
      (true, (bk.cancel_order i).2.add_order ⟨i, ord.is_buy, p, q, ord.timestamp_ns⟩) := by
  simp [OrderBook.amend_order, hl, hget, hp]

theorem amend_order_qty_buy {bk : OrderBook} {i : Nat} {loc : OrderLocation}
    {ord : Order} {q : Nat}
    (hl : lookupFind bk.order_lookup i = some loc) (hget : bk.getOrder loc = some ord)
    (hb : loc.is_buy = true) (hq0 : q ≠ 0) :
    bk.amend_order i ord.price q = (true,
      { bk with
        bids := sideModify bidLt loc.price (updLevel loc.it q ord.quantity) bk.bids }) := by
  simp [OrderBook.amend_order, hl, hget, hb, hq0]
  rfl

theorem amend_order_qty_sell {bk : OrderBook} {i : Nat} {loc : OrderLocation}
    {ord : Order} {q : Nat}
    (hl : lookupFind bk.order_lookup i = some loc) (hget : bk.getOrder loc = some ord)
    (hb : loc.is_buy = false) (hq0 : q ≠ 0) :
    bk.amend_order i ord.price q = (true,
      { bk with
        asks := sideModify askLt loc.price (updLevel loc.it q ord.quantity) bk.asks }) := by
  simp [OrderBook.amend_order, hl, hget, hb, hq0]
  rfl

theorem amend_order_zero_buy {bk : OrderBook} {i : Nat} {loc : OrderLocation} {ord : Order}
    (hl : lookupFind bk.order_lookup i = some loc) (hget : bk.getOrder loc = some ord)
    (hb : loc.is_buy = true) :
    bk.amend_order i ord.price 0 =
      ({ bk with
        bids := sideModify bidLt loc.price (updLevel loc.it 0 ord.quantity) bk.bids
        }).cancel_order i := by
  simp [OrderBook.amend_order, hl, hget, hb]
  rfl

theorem amend_order_zero_sell {bk : OrderBook} {i : Nat} {loc : OrderLocation} {ord : Order}
    (hl : lookupFind bk.order_lookup i = some loc) (hget : bk.getOrder loc = some ord)
    (hb : loc.is_buy = false) :
    bk.amend_order i ord.price 0 =
      ({ bk with
        asks := sideModify askLt loc.price (updLevel loc.it 0 ord.quantity) bk.asks
        }).cancel_order i := by
  simp [OrderBook.amend_order, hl, hget, hb]
  rfl

/-- The in-place quantity mutation (shared by both amend quantity paths)
preserves the invariant, bids side. -/
theorem inv_qty_update_buy {bk : OrderBook} (h : BookInv bk)
    {loc : OrderLocation} {lvl : PriceLevelData} {n : Node} {q : Nat}
    (hf2 : sideFind bk.bids loc.price = some lvl)
    (hfind : findNode lvl.orders loc.it = some n) (hq : q < W64) :
    BookInv { bk with
      bids := sideModify bidLt loc.price (updLevel loc.it q n.ord.quantity) bk.bids } := by
  have hlnd : (lvl.orders.map Node.nid).Nodup :=
    @level_nids_nodup bk h true loc.price lvl hf2
  have hlev : levelInv true loc.price lvl := h.bids_levels _ (mem_of_sideFind hf2)
  have hnids : sideNids (sideModify bidLt loc.price
      (updLevel loc.it q n.ord.quantity) bk.bids) = sideNids bk.bids := by
    refine sideNids_modify_eq bidLt_order h.bids_sorted hf2 ?_
    exact map_nid_setQty lvl.orders loc.it q
  refine ⟨sideModify_sorted bidLt_order h.bids_sorted, h.asks_sorted, ?_, h.asks_levels,
    ?_, ?_, h.lookup_nodup, ?_, h.lookup_inj⟩
  · intro e he
    rcases (mem_sideModify bidLt_order h.bids_sorted e).1 he with rfl | ⟨hmem, _⟩
    · rw [hf2]
      simp only [Option.getD_some]
      exact levelInv_update hlev hlnd hfind hq
    · exact h.bids_levels e hmem
  · show (sideNids _ ++ sideNids bk.asks).Nodup
    rw [hnids]
    exact h.nids_nodup
  · intro j hj
    apply h.nids_lt
    show j ∈ sideNids bk.bids ++ sideNids bk.asks
    rw [← hnids]
    exact hj
  · intro e' he'
    obtain ⟨lvl', n', hf', hm', hnid'⟩ := h.lookup_valid e' he'
    by_cases hbe : e'.2.is_buy = true
    case neg =>
      have hbf : e'.2.is_buy = false := by
        revert hbe
        cases e'.2.is_buy <;> simp
      rw [hbf] at hf'
      rw [hbf]
      exact ⟨lvl', n', hf', hm', hnid'⟩
    case pos =>
      rw [hbe] at hf'
      rw [hbe]
      have hf2' : sideFind bk.bids e'.2.price = some lvl' := hf'
      by_cases hpe : e'.2.price = loc.price
      · rw [hpe] at hf2'
        have hll : lvl' = lvl := Option.some.inj (hf2'.symm.trans hf2)
        refine ⟨updLevel loc.it q n.ord.quantity lvl, (if n'.nid = loc.it
            then { n' with ord := { n'.ord with quantity := q } } else n'), ?_, ?_, ?_⟩
        · show sideFind (sideModify bidLt loc.price _ bk.bids) e'.2.price = _
          rw [hpe, sideFind_modify_self bidLt_order _ h.bids_sorted, hf2]
          rfl
        · show _ ∈ setQty lvl.orders loc.it q
          apply List.mem_map_of_mem
          rw [← hll]
          exact hm'
        · by_cases hni : n'.nid = loc.it
          · simp only [if_pos hni]
            rw [← hnid']
          · simp only [if_neg hni]
            exact hnid'
      · refine ⟨lvl', n', ?_, hm', hnid'⟩
        show sideFind (sideModify bidLt loc.price _ bk.bids) e'.2.price = some lvl'
        rw [sideFind_modify_ne _ _ hpe]
        exact hf2'

/-- The in-place quantity mutation preserves the invariant, asks side. -/
theorem inv_qty_update_sell {bk : OrderBook} (h : BookInv bk)
    {loc : OrderLocation} {lvl : PriceLevelData} {n : Node} {q : Nat}
    (hf2 : sideFind bk.asks loc.price = some lvl)
    (hfind : findNode lvl.orders loc.it = some n) (hq : q < W64) :
    BookInv { bk with
      asks := sideModify askLt loc.price (updLevel loc.it q n.ord.quantity) bk.asks } := by
  have hlnd : (lvl.orders.map Node.nid).Nodup :=
    @level_nids_nodup bk h false loc.price lvl hf2
  have hlev : levelInv false loc.price lvl := h.asks_levels _ (mem_of_sideFind hf2)
  have hnids : sideNids (sideModify askLt loc.price
      (updLevel loc.it q n.ord.quantity) bk.asks) = sideNids bk.asks := by
    refine sideNids_modify_eq askLt_order h.asks_sorted hf2 ?_
    exact map_nid_setQty lvl.orders loc.it q
  refine ⟨h.bids_sorted, sideModify_sorted askLt_order h.asks_sorted, h.bids_levels, ?_,
    ?_, ?_, h.lookup_nodup, ?_, h.lookup_inj⟩
  · intro e he
    rcases (mem_sideModify askLt_order h.asks_sorted e).1 he with rfl | ⟨hmem, _⟩
    · rw [hf2]
      simp only [Option.getD_some]
      exact levelInv_update hlev hlnd hfind hq
    · exact h.asks_levels e hmem
  · show (sideNids bk.bids ++ sideNids _).Nodup
    rw [hnids]
    exact h.nids_nodup
  · intro j hj
    apply h.nids_lt
    show j ∈ sideNids bk.bids ++ sideNids bk.asks
    rw [← hnids]
    exact hj
  · intro e' he'
    obtain ⟨lvl', n', hf', hm', hnid'⟩ := h.lookup_valid e' he'
    by_cases hbe : e'.2.is_buy = true
    case pos =>
      rw [hbe] at hf'
      rw [hbe]
      exact ⟨lvl', n', hf', hm', hnid'⟩
    case neg =>
      have hbf : e'.2.is_buy = false := by
        revert hbe
        cases e'.2.is_buy <;> simp
      rw [hbf] at hf'
      rw [hbf]
      have hf2' : sideFind bk.asks e'.2.price = some lvl' := hf'
      by_cases hpe : e'.2.price = loc.price
      · rw [hpe] at hf2'
        have hll : lvl' = lvl := Option.some.inj (hf2'.symm.trans hf2)
        refine ⟨updLevel loc.it q n.ord.quantity lvl, (if n'.nid = loc.it
            then { n' with ord := { n'.ord with quantity := q } } else n'), ?_, ?_, ?_⟩
        · show sideFind (sideModify askLt loc.price _ bk.asks) e'.2.price = _
          rw [hpe, sideFind_modify_self askLt_order _ h.asks_sorted, hf2]
          rfl
        · show _ ∈ setQty lvl.orders loc.it q
          apply List.mem_map_of_mem
          rw [← hll]
          exact hm'
        · by_cases hni : n'.nid = loc.it
          · simp only [if_pos hni]
            rw [← hnid']
          · simp only [if_neg hni]
            exact hnid'
      · refine ⟨lvl', n', ?_, hm', hnid'⟩
        show sideFind (sideModify askLt loc.price _ bk.asks) e'.2.price = some lvl'
        rw [sideFind_modify_ne _ _ hpe]
        exact hf2'

theorem inv_amend {bk : OrderBook} (h : BookInv bk) (i : Nat) (p : Int) {q : Nat}
    (hq : q < W64) : BookInv (bk.amend_order i p q).2 := by
  cases hl : lookupFind bk.order_lookup i with
  | none =>
    rw [amend_order_none p q hl]
    exact h
  | some loc =>
    obtain ⟨lvl, n, hf, hfind, hmem, hnid, hprice, hbuy, hqlt⟩ := inv_lookup_node h hl
    have hget : bk.getOrder loc = some n.ord := getOrder_eq hf hfind
    by_cases hp : n.ord.price ≠ p
    · rw [amend_order_price_change q hl hget hp]
      exact inv_add (inv_cancel h i) hq
    · push_neg at hp
      subst hp
      cases hb : loc.is_buy
      · rw [hb] at hf
        have hf2 : sideFind bk.asks loc.price = some lvl := hf
        by_cases hq0 : q = 0
        · subst hq0
          rw [amend_order_zero_sell hl hget hb]
          exact inv_cancel (inv_qty_update_sell h hf2 hfind hq) i
        · rw [amend_order_qty_sell hl hget hb hq0]
          exact inv_qty_update_sell h hf2 hfind hq
      · rw [hb] at hf
        have hf2 : sideFind bk.bids loc.price = some lvl := hf
        by_cases hq0 : q = 0
        · subst hq0
          rw [amend_order_zero_buy hl hget hb]
          exact inv_cancel (inv_qty_update_buy h hf2 hfind hq) i
        · rw [amend_order_qty_buy hl hget hb hq0]
          exact inv_qty_update_buy h hf2 hfind hq

theorem inv_step {bk : OrderBook} (h : BookInv bk) (op : Op) : BookInv (bk.step op) := by
  cases op with
  | add i buy pr qt ts => exact inv_add h (mod_W64_lt qt)
  | cancel i => exact inv_cancel h _
  | amend i pr qt => exact inv_amend h _ _ (mod_W64_lt qt)

/-- Every state reached from the empty book satisfies the invariant. -/
theorem inv_run (ops : List Op) : BookInv (run ops) := by
  suffices hgen : ∀ bk, BookInv bk → BookInv (ops.foldl OrderBook.step bk) by
    exact hgen OrderBook.empty inv_empty
  induction ops with
  | nil =>
    intro bk h
    exact h
  | cons op rest ih =>
    intro bk h
    exact ih _ (inv_step h op)

/-! ## Claim theorems -/

/-- A reachable book state whose only level wraps its 64-bit aggregate:
two buy orders of `2^63` at the same price land in one level whose
`uint64_t` aggregate is `0` while the mathematical sum is `2^64`. -/
def overflowBook : OrderBook :=
  run [Op.add 1 true 100 (2 ^ 63) 0, Op.add 2 true 100 (2 ^ 63) 1]

/-- C1 counterexample: in the reachable state `overflowBook` the level at
price 100 stores aggregate `0`, but the sum of the quantities of the orders
in its sequence is `2^64`, so the stored aggregate does not equal the sum. -/
theorem C1_counterexample :
    sideFind overflowBook.bids 100 ≠ none ∧
    (sideFind overflowBook.bids 100).map PriceLevelData.total_quantity ≠
      (sideFind overflowBook.bids 100).map (fun lvl => sumQ lvl.orders) := by
  constructor
  · decide
  · decide

/-- C1 (amended): for every reachable state and every price level present in
either side index, the stored aggregate `total_quantity` equals the sum of
the quantities of the orders in the level's sequence reduced modulo `2^64`
(hence equals the sum exactly whenever that sum fits in 64 bits). -/
theorem C1_theorem (ops : List Op) :
    (∀ e ∈ (run ops).bids, e.2.total_quantity = sumQ e.2.orders % W64) ∧
    (∀ e ∈ (run ops).asks, e.2.total_quantity = sumQ e.2.orders % W64) := by
  have h := inv_run ops
  exact ⟨fun e he => (h.bids_levels e he).2.1, fun e he => (h.asks_levels e he).2.1⟩

/-- The concrete book and level entry used to witness C1. -/
def c1Entry : Int × PriceLevelData := (100, ⟨[⟨0, ⟨1, true, 100, 10, 0⟩⟩], 10⟩)

/-- C1 witness: the amended invariant evaluated on the one-order book. -/
theorem C1_witness :
    c1Entry ∈ (run [Op.add 1 true 100 10 0]).bids ∧
    c1Entry.2.total_quantity = sumQ c1Entry.2.orders % W64 :=
  ⟨by decide, (C1_theorem [Op.add 1 true 100 10 0]).1 c1Entry (by decide)⟩

/-- C5: levels present in a side index are never empty (a price key exists
iff orders rest there), and cancelling the only order at a price removes the
key, decrementing that side's level count in the same operation. -/
theorem C5_theorem (ops : List Op) :
    (∀ e ∈ (run ops).bids, e.2.orders ≠ []) ∧
    (∀ e ∈ (run ops).asks, e.2.orders ≠ []) ∧
    (∀ i loc lvl, lookupFind (run ops).order_lookup i = some loc →
      sideFind ((run ops).sideOf loc.is_buy) loc.price = some lvl →
      lvl.orders.length = 1 →
      (loc.is_buy = true →
        ((run ops).cancel_order i).2.get_bid_levels + 1 = (run ops).get_bid_levels) ∧
      (loc.is_buy = false →
        ((run ops).cancel_order i).2.get_ask_levels + 1 = (run ops).get_ask_levels)) := by
  have h := inv_run ops
  refine ⟨fun e he => (h.bids_levels e he).1, fun e he => (h.asks_levels e he).1, ?_⟩
  intro i loc lvl hl hf hlen
  obtain ⟨lvl0, n, hf0, hfind, hmem, hnid, _, _, _⟩ := inv_lookup_node h hl
  have hll : lvl0 = lvl := Option.some.inj (hf0.symm.trans hf)
  subst hll
  have hlen0 : (eraseNode lvl0.orders loc.it).length = 0 := by
    have := length_eraseNode hfind
    omega
  have hemp : (lvl0.remove_order loc.it).orders.isEmpty = true := by
    show (eraseNode lvl0.orders loc.it).isEmpty = true
    cases he : eraseNode lvl0.orders loc.it with
    | nil => rfl
    | cons a l =>
      rw [he] at hlen0
      simp at hlen0
  constructor
  · intro hb
    rw [hb] at hf0
    have hf2 : sideFind (run ops).bids loc.price = some lvl0 := hf0
    have hr : sideRemove bidLt (run ops).bids loc.price loc.it
        = some (sideErase loc.price (run ops).bids) := by
      rw [@sideRemove_eq bidLt _ loc.price loc.it _ hf2, if_pos hemp]
    rw [cancel_order_buy hl hb hr]
    show (sideErase loc.price (run ops).bids).length + 1 = (run ops).bids.length
    exact length_sideErase hf2
  · intro hb
    rw [hb] at hf0
    have hf2 : sideFind (run ops).asks loc.price = some lvl0 := hf0
    have hr : sideRemove askLt (run ops).asks loc.price loc.it
        = some (sideErase loc.price (run ops).asks) := by
      rw [@sideRemove_eq askLt _ loc.price loc.it _ hf2, if_pos hemp]
    rw [cancel_order_sell hl hb hr]
    show (sideErase loc.price (run ops).asks).length + 1 = (run ops).asks.length
    exact length_sideErase hf2

/-- C5 witness: on the one-order book, cancelling the only bid at price 100
drops the bid level count from 1 to 0. -/
theorem C5_witness :
    lookupFind (run [Op.add 1 true 100 10 0]).order_lookup 1 = some ⟨100, 0, true⟩ ∧
    ((run [Op.add 1 true 100 10 0]).cancel_order 1).2.get_bid_levels + 1 =
      (run [Op.add 1 true 100 10 0]).get_bid_levels :=
  ⟨by decide,
    ((C5_theorem [Op.add 1 true 100 10 0]).2.2 1 ⟨100, 0, true⟩
      ⟨[⟨0, ⟨1, true, 100, 10, 0⟩⟩], 10⟩ (by decide) (by decide) (by decide)).1 rfl⟩

/-- C6: `get_snapshot depth` returns `min depth (levels on the side)`
entries per side, the bid entries strictly descending and the ask entries
strictly ascending by price, each entry being the (price, aggregate) of a
level of the book; being a pure function of the state, it mutates nothing. -/
theorem C6_theorem (ops : List Op) (depth : Nat) :
    ((run ops).get_snapshot depth).1.length = min depth (run ops).get_bid_levels ∧
    ((run ops).get_snapshot depth).2.length = min depth (run ops).get_ask_levels ∧
    ((run ops).get_snapshot depth).1.Pairwise (fun a b => b.price < a.price) ∧
    ((run ops).get_snapshot depth).2.Pairwise (fun a b => a.price < b.price) ∧
    (∀ pl ∈ ((run ops).get_snapshot depth).1, ∃ lvl,
      sideFind (run ops).bids pl.price = some lvl ∧ pl.total_quantity = lvl.total_quantity) ∧
    (∀ pl ∈ ((run ops).get_snapshot depth).2, ∃ lvl,
      sideFind (run ops).asks pl.price = some lvl ∧ pl.total_quantity = lvl.total_quantity) := by
  have h := inv_run ops
  have hndb := sideSorted_nodupKeys bidLt_order h.bids_sorted
  have hnda := sideSorted_nodupKeys askLt_order h.asks_sorted
  refine ⟨?_, ?_, ?_, ?_, ?_, ?_⟩
  · show (((run ops).bids.take depth).map _).length = _
    rw [List.length_map, List.length_take]
    rfl
  · show (((run ops).asks.take depth).map _).length = _
    rw [List.length_map, List.length_take]
    rfl
  · show (((run ops).bids.take depth).map
      (fun e => PriceLevel.mk e.1 e.2.total_quantity)).Pairwise (fun a b => b.price < a.price)
    rw [List.pairwise_map]
    have hs : (run ops).bids.Pairwise (fun a b => bidLt a.1 b.1 = true) := by
      have := h.bids_sorted
      unfold sideSorted sideKeys at this
      exact (List.pairwise_map).1 this
    have ht := hs.sublist (List.take_sublist depth (run ops).bids)
    exact ht.imp fun hab => by
      simpa [bidLt, decide_eq_true_eq] using hab
  · show (((run ops).asks.take depth).map
      (fun e => PriceLevel.mk e.1 e.2.total_quantity)).Pairwise (fun a b => a.price < b.price)
    rw [List.pairwise_map]
    have hs : (run ops).asks.Pairwise (fun a b => askLt a.1 b.1 = true) := by
      have := h.asks_sorted
      unfold sideSorted sideKeys at this
      exact (List.pairwise_map).1 this
    have ht := hs.sublist (List.take_sublist depth (run ops).asks)
    exact ht.imp fun hab => by
      simpa [askLt, decide_eq_true_eq] using hab
  · intro pl hpl
    obtain ⟨e, he, rfl⟩ := List.mem_map.1 hpl
    obtain ⟨p0, l0⟩ := e
    exact ⟨l0, sideFind_of_mem hndb (List.take_subset _ _ he), rfl⟩
  · intro pl hpl
    obtain ⟨e, he, rfl⟩ := List.mem_map.1 hpl
    obtain ⟨p0, l0⟩ := e
    exact ⟨l0, sideFind_of_mem hnda (List.take_subset _ _ he), rfl⟩

/-- C6 witness: snapshot of a two-sided book at depth 5, entries evaluated. -/
theorem C6_witness :
    PriceLevel.mk 100 10 ∈
      ((run [Op.add 1 true 100 10 0, Op.add 2 false 103 5 1]).get_snapshot 5).1 ∧
    (∃ lvl, sideFind (run [Op.add 1 true 100 10 0, Op.add 2 false 103 5 1]).bids 100
        = some lvl ∧ (10 : Nat) = lvl.total_quantity) :=
  ⟨by decide,
    (C6_theorem [Op.add 1 true 100 10 0, Op.add 2 false 103 5 1] 5).2.2.2.2.1
      (PriceLevel.mk 100 10) (by decide)⟩

/-- C2: on a reachable state, `cancel_order` of an absent identity returns
`false` leaving the book untouched; of a present identity it returns `true`,
erases exactly the located node from the level at its price (dropping the
price key iff that node was alone), leaves the other side and the allocator
untouched, and erases the Location entry. -/
theorem C2_theorem (ops : List Op) (i : Nat) :
    (lookupFind (run ops).order_lookup i = none →
      (run ops).cancel_order i = (false, run ops)) ∧
    (∀ loc, lookupFind (run ops).order_lookup i = some loc →
      ∃ lvl, sideFind ((run ops).sideOf loc.is_buy) loc.price = some lvl ∧
        ((run ops).cancel_order i).1 = true ∧
        ((run ops).cancel_order i).2.order_lookup = lookupErase (run ops).order_lookup i ∧
        ((run ops).cancel_order i).2.next_node = (run ops).next_node ∧
        ((run ops).cancel_order i).2.sideOf (!loc.is_buy) = (run ops).sideOf (!loc.is_buy) ∧
        (∀ p : Int, sideFind (((run ops).cancel_order i).2.sideOf loc.is_buy) p =
          if p = loc.price then
            (if (eraseNode lvl.orders loc.it).isEmpty then none
             else some (lvl.remove_order loc.it))
          else sideFind ((run ops).sideOf loc.is_buy) p)) := by
  have h := inv_run ops
  constructor
  · intro hl
    exact cancel_order_none hl
  · intro loc hl
    obtain ⟨lvl, n, hf, hfind, hmem, hnid, _, _, _⟩ := inv_lookup_node h hl
    refine ⟨lvl, hf, ?_⟩
    cases hb : loc.is_buy
    · rw [hb] at hf
      have hf2 : sideFind (run ops).asks loc.price = some lvl := hf
      have hnd := sideSorted_nodupKeys askLt_order h.asks_sorted
      by_cases hemp : (eraseNode lvl.orders loc.it).isEmpty = true
      · have hr : sideRemove askLt (run ops).asks loc.price loc.it
            = some (sideErase loc.price (run ops).asks) := by
          rw [@sideRemove_eq askLt _ loc.price loc.it _ hf2,
            if_pos (show (lvl.remove_order loc.it).orders.isEmpty = true from hemp)]
        rw [cancel_order_sell hl hb hr]
        refine ⟨rfl, rfl, rfl, rfl, ?_⟩
        intro p
        show sideFind (sideErase loc.price (run ops).asks) p = _
        by_cases hpe : p = loc.price
        · rw [if_pos hpe, if_pos hemp, hpe]
          exact sideFind_erase_self hnd
        · rw [if_neg hpe]
          exact sideFind_erase_ne hpe
      · have hneg : ¬ (lvl.remove_order loc.it).orders.isEmpty = true := hemp
        have hr : sideRemove askLt (run ops).asks loc.price loc.it
            = some (sideModify askLt loc.price (fun _ => lvl.remove_order loc.it)
                (run ops).asks) := by
          rw [@sideRemove_eq askLt _ loc.price loc.it _ hf2, if_neg hneg]
        rw [cancel_order_sell hl hb hr]
        refine ⟨rfl, rfl, rfl, rfl, ?_⟩
        intro p
        show sideFind (sideModify askLt loc.price (fun _ => lvl.remove_order loc.it)
          (run ops).asks) p = _
        by_cases hpe : p = loc.price
        · rw [if_pos hpe, if_neg hemp, hpe]
          rw [sideFind_modify_self askLt_order _ h.asks_sorted]
        · rw [if_neg hpe]
          exact sideFind_modify_ne _ _ hpe
    · rw [hb] at hf
      have hf2 : sideFind (run ops).bids loc.price = some lvl := hf
      have hnd := sideSorted_nodupKeys bidLt_order h.bids_sorted
      by_cases hemp : (eraseNode lvl.orders loc.it).isEmpty = true
      · have hr : sideRemove bidLt (run ops).bids loc.price loc.it
            = some (sideErase loc.price (run ops).bids) := by
          rw [@sideRemove_eq bidLt _ loc.price loc.it _ hf2,
            if_pos (show (lvl.remove_order loc.it).orders.isEmpty = true from hemp)]
        rw [cancel_order_buy hl hb hr]
        refine ⟨rfl, rfl, rfl, rfl, ?_⟩
        intro p
        show sideFind (sideErase loc.price (run ops).bids) p = _
        by_cases hpe : p = loc.price
        · rw [if_pos hpe, if_pos hemp, hpe]
          exact sideFind_erase_self hnd
        · rw [if_neg hpe]
          exact sideFind_erase_ne hpe
      · have hneg : ¬ (lvl.remove_order loc.it).orders.isEmpty = true := hemp
        have hr : sideRemove bidLt (run ops).bids loc.price loc.it
            = some (sideModify bidLt loc.price (fun _ => lvl.remove_order loc.it)
                (run ops).bids) := by
          rw [@sideRemove_eq bidLt _ loc.price loc.it _ hf2, if_neg hneg]
        rw [cancel_order_buy hl hb hr]
        refine ⟨rfl, rfl, rfl, rfl, ?_⟩
        intro p
        show sideFind (sideModify bidLt loc.price (fun _ => lvl.remove_order loc.it)
          (run ops).bids) p = _
        by_cases hpe : p = loc.price
        · rw [if_pos hpe, if_neg hemp, hpe]
          rw [sideFind_modify_self bidLt_order _ h.bids_sorted]
        · rw [if_neg hpe]
          exact sideFind_modify_ne _ _ hpe

/-- C2 witness: cancel of an unknown identity is a no-op returning false;
cancel of the resting identity returns true. -/
theorem C2_witness :
    (lookupFind (run [Op.add 1 true 100 10 0]).order_lookup 2 = none ∧
      (run [Op.add 1 true 100 10 0]).cancel_order 2 = (false, run [Op.add 1 true 100 10 0])) ∧
    (lookupFind (run [Op.add 1 true 100 10 0]).order_lookup 1 = some ⟨100, 0, true⟩ ∧
      ((run [Op.add 1 true 100 10 0]).cancel_order 1).1 = true) :=
  ⟨⟨by decide, (C2_theorem [Op.add 1 true 100 10 0] 2).1 (by decide)⟩,
   ⟨by decide, by
      obtain ⟨lvl, _, ht, _⟩ :=
        (C2_theorem [Op.add 1 true 100 10 0] 1).2 ⟨100, 0, true⟩ (by decide)
      exact ht⟩⟩

/-- `cancel_order` returns `true` as soon as the identity resolves and the
indicated level exists. -/
theorem cancel_true_of_found {bk : OrderBook} {i : Nat} {loc : OrderLocation}
    (hl : lookupFind bk.order_lookup i = some loc)
    (hfb : loc.is_buy = true → (sideFind bk.bids loc.price).isSome = true)
    (hfs : loc.is_buy = false → (sideFind bk.asks loc.price).isSome = true) :
    (bk.cancel_order i).1 = true := by
  cases hb : loc.is_buy
  · obtain ⟨lvl, hf⟩ := Option.isSome_iff_exists.1 (hfs hb)
    have hr := @sideRemove_eq askLt _ loc.price loc.it _ hf
    rw [cancel_order_sell hl hb hr]
  · obtain ⟨lvl, hf⟩ := Option.isSome_iff_exists.1 (hfb hb)
    have hr := @sideRemove_eq bidLt _ loc.price loc.it _ hf
    rw [cancel_order_buy hl hb hr]

/-- C7: on a reachable state, `amend_order` returns `true` exactly when the
identity is present in the Location Index; when absent it returns `false`
and the whole state is unchanged. -/
theorem C7_theorem (ops : List Op) (i : Nat) (p : Int) (q : Nat) :
    (((run ops).amend_order i p q).1 = true ↔
      (lookupFind (run ops).order_lookup i).isSome = true) ∧
    (lookupFind (run ops).order_lookup i = none →
      (run ops).amend_order i p q = (false, run ops)) := by
  have h := inv_run ops
  cases hl : lookupFind (run ops).order_lookup i with
  | none =>
    rw [amend_order_none p q hl]
    exact ⟨by simp, fun _ => rfl⟩
  | some loc =>
    refine ⟨?_, fun hc => absurd hc (by simp)⟩
    obtain ⟨lvl, n, hf, hfind, hmem, hnid, hprice, hbuy, hqlt⟩ := inv_lookup_node h hl
    have hget := getOrder_eq hf hfind
    refine ⟨fun _ => rfl, fun _ => ?_⟩
    by_cases hp : n.ord.price ≠ p
    · rw [amend_order_price_change q hl hget hp]
    · push_neg at hp
      subst hp
      by_cases hq0 : q = 0
      · subst hq0
        cases hb : loc.is_buy
        · rw [hb] at hf
          have hf2 : sideFind (run ops).asks loc.price = some lvl := hf
          rw [amend_order_zero_sell hl hget hb]
          refine cancel_true_of_found hl (fun hc => absurd hc (by rw [hb]; simp)) ?_
          intro _
          show (sideFind (sideModify askLt loc.price
            (updLevel loc.it 0 n.ord.quantity) (run ops).asks) loc.price).isSome = true
          rw [sideFind_modify_self askLt_order _ h.asks_sorted]
          rfl
        · rw [hb] at hf
          have hf2 : sideFind (run ops).bids loc.price = some lvl := hf
          rw [amend_order_zero_buy hl hget hb]
          refine cancel_true_of_found hl ?_ (fun hc => absurd hc (by rw [hb]; simp))
          intro _
          show (sideFind (sideModify bidLt loc.price
            (updLevel loc.it 0 n.ord.quantity) (run ops).bids) loc.price).isSome = true
          rw [sideFind_modify_self bidLt_order _ h.bids_sorted]
          rfl
      · cases hb : loc.is_buy
        · rw [amend_order_qty_sell hl hget hb hq0]
        · rw [amend_order_qty_buy hl hget hb hq0]

/-- C7 witness: amend of an unknown identity on the one-order book returns
false without mutation; amend of the resting identity returns true. -/
theorem C7_witness :
    (lookupFind (run [Op.add 1 true 100 10 0]).order_lookup 9 = none ∧
      (run [Op.add 1 true 100 10 0]).amend_order 9 100 5
        = (false, run [Op.add 1 true 100 10 0])) ∧
    ((run [Op.add 1 true 100 10 0]).amend_order 1 100 5).1 = true :=
  ⟨⟨by decide, (C7_theorem [Op.add 1 true 100 10 0] 9 100 5).2 (by decide)⟩,
   (C7_theorem [Op.add 1 true 100 10 0] 1 100 5).1.2 (by decide)⟩

/-- Zeroing an order's quantity in place and then removing it produces the
same level as removing it directly: the erase drops the same node, and the
aggregate ends at `total - oldq` either way (the cancel subtracts the
already-zeroed quantity). -/
theorem remove_after_zero {lvl : PriceLevelData} {i : Nat} {n : Node}
    (hnd : (lvl.orders.map Node.nid).Nodup) (hfind : findNode lvl.orders i = some n) :
    (updLevel i 0 n.ord.quantity lvl).remove_order i = lvl.remove_order i := by
  unfold PriceLevelData.remove_order updLevel
  simp only
  rw [eraseNode_setQty 0 hnd, findNode_setQty_self 0 hfind, hfind]
  simp only
  rw [add64_zero _ (sub64_lt _ _), sub64_zero _ (sub64_lt _ _)]

/-- `cancel_order` on a book whose asks were just replaced, in record-update
form (used to chain the amend-to-zero path with the cancel it performs). -/
theorem cancel_order_sell_mod {bk : OrderBook} {i : Nat} {loc : OrderLocation}
    {M s' : Side} (hl : lookupFind bk.order_lookup i = some loc)
    (hb : loc.is_buy = false) (hr : sideRemove askLt M loc.price loc.it = some s') :
    ({ bk with asks := M }).cancel_order i =
      (true, { bk with asks := s', order_lookup := lookupErase bk.order_lookup i }) := by
  have h := @cancel_order_sell { bk with asks := M } i loc s' hl hb hr
  exact h

/-- `cancel_order` on a book whose bids were just replaced. -/
theorem cancel_order_buy_mod {bk : OrderBook} {i : Nat} {loc : OrderLocation}
    {M s' : Side} (hl : lookupFind bk.order_lookup i = some loc)
    (hb : loc.is_buy = true) (hr : sideRemove bidLt M loc.price loc.it = some s') :
    ({ bk with bids := M }).cancel_order i =
      (true, { bk with bids := s', order_lookup := lookupErase bk.order_lookup i }) := by
  have h := @cancel_order_buy { bk with bids := M } i loc s' hl hb hr
  exact h

/-- C9: on a reachable state where `i` rests (located by `loc`, record
`ord`), amending to the same price with quantity 0 is exactly `cancel`: the
same boolean is returned and the same final state is produced. -/
theorem C9_theorem (ops : List Op) (i : Nat) (loc : OrderLocation) (ord : Order)
    (hl : lookupFind (run ops).order_lookup i = some loc)
    (hget : (run ops).getOrder loc = some ord) :
    (run ops).amend_order i ord.price 0 = (run ops).cancel_order i := by
  have h := inv_run ops
  obtain ⟨lvl, n, hf, hfind, hmem, hnid, hprice, hbuy, hqlt⟩ := inv_lookup_node h hl
  have hord : ord = n.ord := Option.some.inj (hget.symm.trans (getOrder_eq hf hfind))
  subst hord
  cases hb : loc.is_buy
  · rw [hb] at hf
    have hf2 : sideFind (run ops).asks loc.price = some lvl := hf
    have hlnd : (lvl.orders.map Node.nid).Nodup :=
      @level_nids_nodup (run ops) h false loc.price lvl hf2
    rw [amend_order_zero_sell hl hget hb]
    have hf3 : sideFind (sideModify askLt loc.price
        (updLevel loc.it 0 n.ord.quantity) (run ops).asks) loc.price
        = some (updLevel loc.it 0 n.ord.quantity lvl) := by
      rw [sideFind_modify_self askLt_order _ h.asks_sorted, hf2]
      rfl
    have hX : (updLevel loc.it 0 n.ord.quantity lvl).remove_order loc.it
        = lvl.remove_order loc.it := remove_after_zero hlnd hfind
    have hr2 : sideRemove askLt (sideModify askLt loc.price
        (updLevel loc.it 0 n.ord.quantity) (run ops).asks) loc.price loc.it
        = some (if (lvl.remove_order loc.it).orders.isEmpty
            then sideErase loc.price (sideModify askLt loc.price
              (updLevel loc.it 0 n.ord.quantity) (run ops).asks)
            else sideModify askLt loc.price (fun _ => lvl.remove_order loc.it)
              (sideModify askLt loc.price
                (updLevel loc.it 0 n.ord.quantity) (run ops).asks)) := by
      rw [@sideRemove_eq askLt _ loc.price loc.it _ hf3, hX]
    have hr := @sideRemove_eq askLt _ loc.price loc.it _ hf2
    rw [cancel_order_sell_mod hl hb hr2, cancel_order_sell hl hb hr]
    by_cases hemp : (lvl.remove_order loc.it).orders.isEmpty = true
    · rw [if_pos hemp, if_pos hemp, sideErase_sideModify askLt_order h.asks_sorted]
    · rw [if_neg hemp, if_neg hemp, sideModify_sideModify]
  · rw [hb] at hf
    have hf2 : sideFind (run ops).bids loc.price = some lvl := hf
    have hlnd : (lvl.orders.map Node.nid).Nodup :=
      @level_nids_nodup (run ops) h true loc.price lvl hf2
    rw [amend_order_zero_buy hl hget hb]
    have hf3 : sideFind (sideModify bidLt loc.price
        (updLevel loc.it 0 n.ord.quantity) (run ops).bids) loc.price
        = some (updLevel loc.it 0 n.ord.quantity lvl) := by
      rw [sideFind_modify_self bidLt_order _ h.bids_sorted, hf2]
      rfl
    have hX : (updLevel loc.it 0 n.ord.quantity lvl).remove_order loc.it
        = lvl.remove_order loc.it := remove_after_zero hlnd hfind
    have hr2 : sideRemove bidLt (sideModify bidLt loc.price
        (updLevel loc.it 0 n.ord.quantity) (run ops).bids) loc.price loc.it
        = some (if (lvl.remove_order loc.it).orders.isEmpty
            then sideErase loc.price (sideModify bidLt loc.price
              (updLevel loc.it 0 n.ord.quantity) (run ops).bids)
            else sideModify bidLt loc.price (fun _ => lvl.remove_order loc.it)
              (sideModify bidLt loc.price
                (updLevel loc.it 0 n.ord.quantity) (run ops).bids)) := by
      rw [@sideRemove_eq bidLt _ loc.price loc.it _ hf3, hX]
    have hr := @sideRemove_eq bidLt _ loc.price loc.it _ hf2
    rw [cancel_order_buy_mod hl hb hr2, cancel_order_buy hl hb hr]
    by_cases hemp : (lvl.remove_order loc.it).orders.isEmpty = true
    · rw [if_pos hemp, if_pos hemp, sideErase_sideModify bidLt_order h.bids_sorted]
    · rw [if_neg hemp, if_neg hemp, sideModify_sideModify]

/-- C9 witness: on the one-order book, amend(1, 100.0, 0) coincides with
cancel(1), state and return value alike. -/
theorem C9_witness :
    lookupFind (run [Op.add 1 true 100 10 0]).order_lookup 1 = some ⟨100, 0, true⟩ ∧
    (run [Op.add 1 true 100 10 0]).getOrder ⟨100, 0, true⟩ = some ⟨1, true, 100, 10, 0⟩ ∧
    (run [Op.add 1 true 100 10 0]).amend_order 1 100 0
      = (run [Op.add 1 true 100 10 0]).cancel_order 1 :=
  ⟨by decide, by decide,
    C9_theorem [Op.add 1 true 100 10 0] 1 ⟨100, 0, true⟩ ⟨1, true, 100, 10, 0⟩
      (by decide) (by decide)⟩

/-- C3: a price-changing amend produces exactly the state of `cancel`
followed by `add` of a fresh order with the same identity and side, the
original order's timestamp, and the new price and quantity; the re-added
order sits at the tail (time-last position) of the new price level. -/
theorem C3_theorem (ops : List Op) (i : Nat) (loc : OrderLocation) (ord : Order)
    (new_price : Int) (new_q : Nat)
    (hl : lookupFind (run ops).order_lookup i = some loc)
    (hget : (run ops).getOrder loc = some ord)
    (hp : ord.price ≠ new_price) :
    (run ops).amend_order i new_price new_q =
      (true, ((run ops).cancel_order i).2.add_order
        ⟨i, ord.is_buy, new_price, new_q, ord.timestamp_ns⟩) ∧
    (∃ lvl, sideFind ((((run ops).amend_order i new_price new_q).2).sideOf ord.is_buy)
        new_price = some lvl ∧
      lvl.orders.getLast? = some ⟨((run ops).cancel_order i).2.next_node,
        ⟨i, ord.is_buy, new_price, new_q, ord.timestamp_ns⟩⟩) := by
  have heq := amend_order_price_change new_q hl hget hp
  have h1 : BookInv ((run ops).cancel_order i).2 := inv_cancel (inv_run ops) i
  refine ⟨heq, ?_⟩
  rw [heq]
  cases hbo : ord.is_buy
  · rw [add_order_sell _ _ rfl]
    refine ⟨_, sideFind_modify_self askLt_order _ h1.asks_sorted, ?_⟩
    show ((((sideFind ((run ops).cancel_order i).2.asks new_price).getD
      { orders := [], total_quantity := 0 }).add_order _).orders).getLast? = _
    simp [PriceLevelData.add_order]
  · rw [add_order_buy _ _ rfl]
    refine ⟨_, sideFind_modify_self bidLt_order _ h1.bids_sorted, ?_⟩
    show ((((sideFind ((run ops).cancel_order i).2.bids new_price).getD
      { orders := [], total_quantity := 0 }).add_order _).orders).getLast? = _
    simp [PriceLevelData.add_order]

/-- C3 witness: on the one-order book, amend(1, 101.0, 7) equals cancel
then add at the new price, and the new order is at the tail of the level at
price 101. -/
theorem C3_witness :
    lookupFind (run [Op.add 1 true 100 10 0]).order_lookup 1 = some ⟨100, 0, true⟩ ∧
    (run [Op.add 1 true 100 10 0]).getOrder ⟨100, 0, true⟩ = some ⟨1, true, 100, 10, 0⟩ ∧
    ((100 : Int) ≠ 101) ∧
    (run [Op.add 1 true 100 10 0]).amend_order 1 101 7 =
      (true, ((run [Op.add 1 true 100 10 0]).cancel_order 1).2.add_order
        ⟨1, true, 101, 7, 0⟩) :=
  ⟨by decide, by decide, by decide,
    (C3_theorem [Op.add 1 true 100 10 0] 1 ⟨100, 0, true⟩ ⟨1, true, 100, 10, 0⟩ 101 7
      (by decide) (by decide) (by decide)).1⟩

/-- C10 (implicit): a price-changing amend keeps the order on its original
side — the Location entry written by the re-add carries the old order's
side flag and points at a node stored on that same side. -/
theorem C10_theorem (ops : List Op) (i : Nat) (loc : OrderLocation) (ord : Order)
    (new_price : Int) (new_q : Nat)
    (hl : lookupFind (run ops).order_lookup i = some loc)
    (hget : (run ops).getOrder loc = some ord)
    (hp : ord.price ≠ new_price) :
    ∃ loc', lookupFind (((run ops).amend_order i new_price new_q).2).order_lookup i
        = some loc' ∧
      loc'.is_buy = loc.is_buy ∧ loc'.price = new_price ∧
      (∃ lvl n', sideFind ((((run ops).amend_order i new_price new_q).2).sideOf loc.is_buy)
          new_price = some lvl ∧ n' ∈ lvl.orders ∧ n'.nid = loc'.it ∧
          n'.ord.is_buy = loc.is_buy) := by
  have h := inv_run ops
  obtain ⟨lvl0, n0, hf0, hfind0, hmem0, hnid0, hprice0, hbuy0, _⟩ := inv_lookup_node h hl
  have hord : ord = n0.ord := Option.some.inj (hget.symm.trans (getOrder_eq hf0 hfind0))
  subst hord
  have heq := amend_order_price_change new_q hl hget hp
  have h1 : BookInv ((run ops).cancel_order i).2 := inv_cancel (inv_run ops) i
  rw [heq, ← hbuy0]
  cases hbo : n0.ord.is_buy
  · rw [add_order_sell _ _ rfl]
    refine ⟨⟨new_price, ((run ops).cancel_order i).2.next_node, false⟩, ?_, rfl, rfl, ?_⟩
    · show lookupFind (lookupInsert _ i _) i = _
      exact lookupFind_insert_self _ _ _
    · refine ⟨((sideFind ((run ops).cancel_order i).2.asks new_price).getD
          { orders := [], total_quantity := 0 }).add_order
          ⟨((run ops).cancel_order i).2.next_node,
            ⟨i, false, new_price, new_q, n0.ord.timestamp_ns⟩⟩,
        ⟨((run ops).cancel_order i).2.next_node,
          ⟨i, false, new_price, new_q, n0.ord.timestamp_ns⟩⟩, ?_, ?_, rfl, rfl⟩
      · exact sideFind_modify_self askLt_order _ h1.asks_sorted
      · show _ ∈ (((sideFind ((run ops).cancel_order i).2.asks new_price).getD
          { orders := [], total_quantity := 0 }).add_order _).orders
        simp [PriceLevelData.add_order]
  · rw [add_order_buy _ _ rfl]
    refine ⟨⟨new_price, ((run ops).cancel_order i).2.next_node, true⟩, ?_, rfl, rfl, ?_⟩
    · show lookupFind (lookupInsert _ i _) i = _
      exact lookupFind_insert_self _ _ _
    · refine ⟨((sideFind ((run ops).cancel_order i).2.bids new_price).getD
          { orders := [], total_quantity := 0 }).add_order
          ⟨((run ops).cancel_order i).2.next_node,
            ⟨i, true, new_price, new_q, n0.ord.timestamp_ns⟩⟩,
        ⟨((run ops).cancel_order i).2.next_node,
          ⟨i, true, new_price, new_q, n0.ord.timestamp_ns⟩⟩, ?_, ?_, rfl, rfl⟩
      · exact sideFind_modify_self bidLt_order _ h1.bids_sorted
      · show _ ∈ (((sideFind ((run ops).cancel_order i).2.bids new_price).getD
          { orders := [], total_quantity := 0 }).add_order _).orders
        simp [PriceLevelData.add_order]

/-- C10 witness: amending the resting buy order 1 to price 101 leaves it on
the bid side. -/
theorem C10_witness :
    lookupFind (run [Op.add 1 true 100 10 0]).order_lookup 1 = some ⟨100, 0, true⟩ ∧
    lookupFind (((run [Op.add 1 true 100 10 0]).amend_order 1 101 7).2).order_lookup 1
      = some ⟨101, 1, true⟩ :=
  ⟨by decide, by
    obtain ⟨loc', hfound, hside, hprice, _⟩ :=
      C10_theorem [Op.add 1 true 100 10 0] 1 ⟨100, 0, true⟩ ⟨1, true, 100, 10, 0⟩ 101 7
        (by decide) (by decide) (by decide)
    have hcomp : lookupFind (((run [Op.add 1 true 100 10 0]).amend_order 1 101 7).2).order_lookup 1
        = some ⟨101, 1, true⟩ := by decide
    exact hcomp⟩

/-- C4: a quantity-only amend (same price, nonzero new quantity) returns
true and changes only the located order's quantity field and its level's
aggregate (recomputed as `aggregate - oldq + newq` in 64-bit arithmetic):
the Location Index, the allocator counter, the other side, every other
price level, both level counts, and every order's position are unchanged;
position-by-position the level keeps the same nodes, with only the located
node's quantity rewritten. -/
theorem C4_theorem (ops : List Op) (i : Nat) (loc : OrderLocation) (ord : Order) (q : Nat)
    (hl : lookupFind (run ops).order_lookup i = some loc)
    (hget : (run ops).getOrder loc = some ord) (hq0 : q ≠ 0) :
    ((run ops).amend_order i ord.price q).1 = true ∧
    ((run ops).amend_order i ord.price q).2.order_lookup = (run ops).order_lookup ∧
    ((run ops).amend_order i ord.price q).2.next_node = (run ops).next_node ∧
    ((run ops).amend_order i ord.price q).2.sideOf (!loc.is_buy)
      = (run ops).sideOf (!loc.is_buy) ∧
    ((run ops).amend_order i ord.price q).2.get_bid_levels = (run ops).get_bid_levels ∧
    ((run ops).amend_order i ord.price q).2.get_ask_levels = (run ops).get_ask_levels ∧
    (∀ p, p ≠ loc.price →
      sideFind (((run ops).amend_order i ord.price q).2.sideOf loc.is_buy) p
        = sideFind ((run ops).sideOf loc.is_buy) p) ∧
    (∃ lvl, sideFind ((run ops).sideOf loc.is_buy) loc.price = some lvl ∧
      sideFind (((run ops).amend_order i ord.price q).2.sideOf loc.is_buy) loc.price
        = some (updLevel loc.it q ord.quantity lvl) ∧
      (updLevel loc.it q ord.quantity lvl).orders.length = lvl.orders.length ∧
      (updLevel loc.it q ord.quantity lvl).total_quantity
        = add64 (sub64 lvl.total_quantity ord.quantity) q ∧
      (∀ k : Nat, (updLevel loc.it q ord.quantity lvl).orders[k]?
        = (lvl.orders[k]?).map fun nd =>
            if nd.nid = loc.it then { nd with ord := { nd.ord with quantity := q } }
            else nd)) := by
  have h := inv_run ops
  obtain ⟨lvl0, n0, hf0, hfind0, hmem0, hnid0, hprice0, hbuy0, _⟩ := inv_lookup_node h hl
  have hord : ord = n0.ord := Option.some.inj (hget.symm.trans (getOrder_eq hf0 hfind0))
  subst hord
  cases hb : loc.is_buy
  · rw [hb] at hf0
    have hf2 : sideFind (run ops).asks loc.price = some lvl0 := hf0
    rw [amend_order_qty_sell hl hget hb hq0]
    refine ⟨rfl, rfl, rfl, rfl, rfl, ?_, ?_, lvl0, hf2, ?_, ?_, rfl, ?_⟩
    · show (sideModify askLt loc.price _ (run ops).asks).length = (run ops).asks.length
      exact length_sideModify_of_find_some askLt_order h.asks_sorted hf2 _
    · intro p hp
      show sideFind (sideModify askLt loc.price _ (run ops).asks) p
        = sideFind (run ops).asks p
      exact sideFind_modify_ne _ _ hp
    · show sideFind (sideModify askLt loc.price _ (run ops).asks) loc.price = _
      rw [sideFind_modify_self askLt_order _ h.asks_sorted, hf2]
      rfl
    · exact length_setQty lvl0.orders loc.it q
    · intro k
      show (setQty lvl0.orders loc.it q)[k]? = _
      exact List.getElem?_map ..
  · rw [hb] at hf0
    have hf2 : sideFind (run ops).bids loc.price = some lvl0 := hf0
    rw [amend_order_qty_buy hl hget hb hq0]
    refine ⟨rfl, rfl, rfl, rfl, ?_, rfl, ?_, lvl0, hf2, ?_, ?_, rfl, ?_⟩
    · show (sideModify bidLt loc.price _ (run ops).bids).length = (run ops).bids.length
      exact length_sideModify_of_find_some bidLt_order h.bids_sorted hf2 _
    · intro p hp
      show sideFind (sideModify bidLt loc.price _ (run ops).bids) p
        = sideFind (run ops).bids p
      exact sideFind_modify_ne _ _ hp
    · show sideFind (sideModify bidLt loc.price _ (run ops).bids) loc.price = _
      rw [sideFind_modify_self bidLt_order _ h.bids_sorted, hf2]
      rfl
    · exact length_setQty lvl0.orders loc.it q
    · intro k
      show (setQty lvl0.orders loc.it q)[k]? = _
      exact List.getElem?_map ..

/-- C4 witness: amending order 1's quantity from 10 to 50 at its own price
keeps the Location Index and level count, and rewrites only the quantity. -/
theorem C4_witness :
    lookupFind (run [Op.add 1 true 100 10 0]).order_lookup 1 = some ⟨100, 0, true⟩ ∧
    ((run [Op.add 1 true 100 10 0]).amend_order 1 100 50).1 = true ∧
    ((run [Op.add 1 true 100 10 0]).amend_order 1 100 50).2.order_lookup
      = (run [Op.add 1 true 100 10 0]).order_lookup :=
  ⟨by decide,
    (C4_theorem [Op.add 1 true 100 10 0] 1 ⟨100, 0, true⟩ ⟨1, true, 100, 10, 0⟩ 50
      (by decide) (by decide) (by decide)).1,
    ((C4_theorem [Op.add 1 true 100 10 0] 1 ⟨100, 0, true⟩ ⟨1, true, 100, 10, 0⟩ 50
      (by decide) (by decide) (by decide)).2.1)⟩

/-- C8: a second `add` with an identity that is already resting performs no
duplicate check: it appends a new node, silently overwrites the Location
entry so that it refers to the newly appended node, and creates no second
entry (`totalOrders` is unchanged); the earlier order still occupies its
level and is still counted in that level's aggregate; cancelling the
identity afterwards removes the new order while the earlier one remains
resting yet unreachable (its identity resolves to nothing); and
`totalOrders` always equals the number of distinct identities in the
Location Index. -/
theorem C8_theorem (ops : List Op) (o : Order) (loc : OrderLocation)
    (hl : lookupFind (run ops).order_lookup o.order_id = some loc)
    (hoq : o.quantity < W64) :
    lookupFind ((run ops).add_order o).order_lookup o.order_id
      = some ⟨o.price, (run ops).next_node, o.is_buy⟩ ∧
    ((run ops).add_order o).get_total_orders = (run ops).get_total_orders ∧
    (∃ lvl n, sideFind (((run ops).add_order o).sideOf loc.is_buy) loc.price = some lvl ∧
      n ∈ lvl.orders ∧ n.nid = loc.it ∧ lvl.total_quantity = sumQ lvl.orders % W64) ∧
    (∃ lvl n, sideFind (((((run ops).add_order o).cancel_order o.order_id).2).sideOf
        loc.is_buy) loc.price = some lvl ∧ n ∈ lvl.orders ∧ n.nid = loc.it) ∧
    lookupFind ((((run ops).add_order o).cancel_order o.order_id).2).order_lookup
      o.order_id = none ∧
    (run ops).get_total_orders = (lookupKeys (run ops).order_lookup).dedup.length := by
  have h := inv_run ops
  have h2 : BookInv ((run ops).add_order o) := inv_add h hoq
  obtain ⟨lvl0, n0, hf0, hfind0, hmem0, hnid0, hprice0, hbuy0, hnq0⟩ := inv_lookup_node h hl
  have hitlt : loc.it < (run ops).next_node := inv_it_lt h (mem_of_lookupFind hl)
  have h1 : lookupFind ((run ops).add_order o).order_lookup o.order_id
      = some ⟨o.price, (run ops).next_node, o.is_buy⟩ := by
    cases hbo : o.is_buy
    · rw [add_order_sell _ _ hbo, hbo]
      exact lookupFind_insert_self _ _ _
    · rw [add_order_buy _ _ hbo, hbo]
      exact lookupFind_insert_self _ _ _
  have htot : ((run ops).add_order o).get_total_orders = (run ops).get_total_orders := by
    cases hbo : o.is_buy
    · rw [add_order_sell _ _ hbo]
      exact length_lookupInsert_of_find_some hl _
    · rw [add_order_buy _ _ hbo]
      exact length_lookupInsert_of_find_some hl _
  have hcore : ∃ lvl, sideFind (((run ops).add_order o).sideOf loc.is_buy) loc.price
      = some lvl ∧ n0 ∈ lvl.orders := by
    cases hbo : o.is_buy
    · rw [add_order_sell _ _ hbo]
      cases hbl : loc.is_buy
      · rw [hbl] at hf0
        have hf2 : sideFind (run ops).asks loc.price = some lvl0 := hf0
        show ∃ lvl, sideFind (sideModify askLt o.price _ (run ops).asks) loc.price
          = some lvl ∧ n0 ∈ lvl.orders
        by_cases hpe : loc.price = o.price
        · refine ⟨((sideFind (run ops).asks o.price).getD
              { orders := [], total_quantity := 0 }).add_order
              ⟨(run ops).next_node, o⟩, ?_, ?_⟩
          · rw [hpe]
            exact sideFind_modify_self askLt_order _ h.asks_sorted
          · rw [hpe] at hf2
            show n0 ∈ (((sideFind (run ops).asks o.price).getD
              { orders := [], total_quantity := 0 }).add_order _).orders
            rw [hf2]
            simp only [Option.getD_some, PriceLevelData.add_order, List.mem_append]
            exact Or.inl hmem0
        · exact ⟨lvl0, by rw [sideFind_modify_ne _ _ hpe]; exact hf2, hmem0⟩
      · rw [hbl] at hf0
        exact ⟨lvl0, hf0, hmem0⟩
    · rw [add_order_buy _ _ hbo]
      cases hbl : loc.is_buy
      · rw [hbl] at hf0
        exact ⟨lvl0, hf0, hmem0⟩
      · rw [hbl] at hf0
        have hf2 : sideFind (run ops).bids loc.price = some lvl0 := hf0
        show ∃ lvl, sideFind (sideModify bidLt o.price _ (run ops).bids) loc.price
          = some lvl ∧ n0 ∈ lvl.orders
        by_cases hpe : loc.price = o.price
        · refine ⟨((sideFind (run ops).bids o.price).getD
              { orders := [], total_quantity := 0 }).add_order
              ⟨(run ops).next_node, o⟩, ?_, ?_⟩
          · rw [hpe]
            exact sideFind_modify_self bidLt_order _ h.bids_sorted
          · rw [hpe] at hf2
            show n0 ∈ (((sideFind (run ops).bids o.price).getD
              { orders := [], total_quantity := 0 }).add_order _).orders
            rw [hf2]
            simp only [Option.getD_some, PriceLevelData.add_order, List.mem_append]
            exact Or.inl hmem0
        · exact ⟨lvl0, by rw [sideFind_modify_ne _ _ hpe]; exact hf2, hmem0⟩
  obtain ⟨lvlA, hfA, hmemA⟩ := hcore
  have hagg : lvlA.total_quantity = sumQ lvlA.orders % W64 :=
    ((inv_side h2 loc.is_buy).2.1 (loc.price, lvlA) (mem_of_sideFind hfA)).2.1
  have h5 : (run ops).get_total_orders
      = (lookupKeys (run ops).order_lookup).dedup.length := by
    rw [List.dedup_eq_self.2 h.lookup_nodup]
    show (run ops).order_lookup.length = (lookupKeys (run ops).order_lookup).length
    rw [lookupKeys, List.length_map]
  refine ⟨h1, htot, ⟨lvlA, n0, hfA, hmemA, hnid0, hagg⟩, ?_, ?_, h5⟩
  all_goals obtain ⟨lvlB, nB, hfB, hfindB, hmemB, hnidB, _, _, _⟩ := inv_lookup_node h2 h1
  case _ =>
    -- the earlier order survives the cancel of the overwritten identity
    cases hbo : o.is_buy
    · have hfB2 : sideFind ((run ops).add_order o).asks o.price = some lvlB := by
        have hx := hfB
        rw [show (⟨o.price, (run ops).next_node, o.is_buy⟩ : OrderLocation).is_buy
          = o.is_buy from rfl, hbo] at hx
        exact hx
      have hrB := @sideRemove_eq askLt _ o.price ((run ops).next_node) _ hfB2
      rw [cancel_order_sell h1 (by rw [hbo]) hrB]
      cases hbl : loc.is_buy
      · -- earlier order also on asks
        have hfA2 : sideFind ((run ops).add_order o).asks loc.price = some lvlA := by
          have hx := hfA
          rw [hbl] at hx
          exact hx
        by_cases hpe : loc.price = o.price
        · -- same level: the erase removes only the fresh node
          have hAB : lvlA = lvlB := by
            rw [hpe] at hfA2
            exact Option.some.inj (hfA2.symm.trans hfB2)
          have hlndB : (lvlB.orders.map Node.nid).Nodup :=
            @level_nids_nodup ((run ops).add_order o) h2 false o.price lvlB hfB2
          have hmemE : n0 ∈ eraseNode lvlB.orders ((run ops).next_node) := by
            refine (mem_eraseNode hlndB (by rw [hfindB]; rfl) n0).2 ⟨?_, ?_⟩
            · rw [← hAB]
              exact hmemA
            · rw [hnid0]
              omega
          have hne : ¬ (lvlB.remove_order ((run ops).next_node)).orders.isEmpty = true := by
            show ¬ (eraseNode lvlB.orders ((run ops).next_node)).isEmpty = true
            cases hE : eraseNode lvlB.orders ((run ops).next_node) with
            | nil =>
              rw [hE] at hmemE
              simp at hmemE
            | cons a l => simp
          rw [if_neg hne]
          refine ⟨lvlB.remove_order ((run ops).next_node), n0, ?_, hmemE, hnid0⟩
          show sideFind (sideModify askLt o.price _ ((run ops).add_order o).asks) loc.price
            = some (lvlB.remove_order ((run ops).next_node))
          rw [hpe, sideFind_modify_self askLt_order _ h2.asks_sorted]
        · -- other price on the same side: untouched either way
          by_cases hemp : (lvlB.remove_order ((run ops).next_node)).orders.isEmpty = true
          · rw [if_pos hemp]
            refine ⟨lvlA, n0, ?_, hmemA, hnid0⟩
            show sideFind (sideErase o.price ((run ops).add_order o).asks) loc.price
              = some lvlA
            rw [sideFind_erase_ne hpe]
            exact hfA2
          · rw [if_neg hemp]
            refine ⟨lvlA, n0, ?_, hmemA, hnid0⟩
            show sideFind (sideModify askLt o.price _ ((run ops).add_order o).asks) loc.price
              = some lvlA
            rw [sideFind_modify_ne _ _ hpe]
            exact hfA2
      · -- earlier order on bids: that side is untouched
        have hfA2 : sideFind ((run ops).add_order o).bids loc.price = some lvlA := by
          have hx := hfA
          rw [hbl] at hx
          exact hx
        exact ⟨lvlA, n0, hfA2, hmemA, hnid0⟩
    · have hfB2 : sideFind ((run ops).add_order o).bids o.price = some lvlB := by
        have hx := hfB
        rw [show (⟨o.price, (run ops).next_node, o.is_buy⟩ : OrderLocation).is_buy
          = o.is_buy from rfl, hbo] at hx
        exact hx
      have hrB := @sideRemove_eq bidLt _ o.price ((run ops).next_node) _ hfB2
      rw [cancel_order_buy h1 (by rw [hbo]) hrB]
      cases hbl : loc.is_buy
      · -- earlier order on asks: that side is untouched
        have hfA2 : sideFind ((run ops).add_order o).asks loc.price = some lvlA := by
          have hx := hfA
          rw [hbl] at hx
          exact hx
        exact ⟨lvlA, n0, hfA2, hmemA, hnid0⟩
      · have hfA2 : sideFind ((run ops).add_order o).bids loc.price = some lvlA := by
          have hx := hfA
          rw [hbl] at hx
          exact hx
        by_cases hpe : loc.price = o.price
        · have hAB : lvlA = lvlB := by
            rw [hpe] at hfA2
            exact Option.some.inj (hfA2.symm.trans hfB2)
          have hlndB : (lvlB.orders.map Node.nid).Nodup :=
            @level_nids_nodup ((run ops).add_order o) h2 true o.price lvlB hfB2
          have hmemE : n0 ∈ eraseNode lvlB.orders ((run ops).next_node) := by
            refine (mem_eraseNode hlndB (by rw [hfindB]; rfl) n0).2 ⟨?_, ?_⟩
            · rw [← hAB]
              exact hmemA
            · rw [hnid0]
              omega
          have hne : ¬ (lvlB.remove_order ((run ops).next_node)).orders.isEmpty = true := by
            show ¬ (eraseNode lvlB.orders ((run ops).next_node)).isEmpty = true
            cases hE : eraseNode lvlB.orders ((run ops).next_node) with
            | nil =>
              rw [hE] at hmemE
              simp at hmemE
            | cons a l => simp
          rw [if_neg hne]
          refine ⟨lvlB.remove_order ((run ops).next_node), n0, ?_, hmemE, hnid0⟩
          show sideFind (sideModify bidLt o.price _ ((run ops).add_order o).bids) loc.price
            = some (lvlB.remove_order ((run ops).next_node))
          rw [hpe, sideFind_modify_self bidLt_order _ h2.bids_sorted]
        · by_cases hemp : (lvlB.remove_order ((run ops).next_node)).orders.isEmpty = true
          · rw [if_pos hemp]
            refine ⟨lvlA, n0, ?_, hmemA, hnid0⟩
            show sideFind (sideErase o.price ((run ops).add_order o).bids) loc.price
              = some lvlA
            rw [sideFind_erase_ne hpe]
            exact hfA2
          · rw [if_neg hemp]
            refine ⟨lvlA, n0, ?_, hmemA, hnid0⟩
            show sideFind (sideModify bidLt o.price _ ((run ops).add_order o).bids) loc.price
              = some lvlA
            rw [sideFind_modify_ne _ _ hpe]
            exact hfA2
  case _ =>
    -- after the cancel the reused identity resolves to nothing
    cases hbo : o.is_buy
    · have hfB2 : sideFind ((run ops).add_order o).asks o.price = some lvlB := by
        have hx := hfB
        rw [show (⟨o.price, (run ops).next_node, o.is_buy⟩ : OrderLocation).is_buy
          = o.is_buy from rfl, hbo] at hx
        exact hx
      have hrB := @sideRemove_eq askLt _ o.price ((run ops).next_node) _ hfB2
      rw [cancel_order_sell h1 (by rw [hbo]) hrB]
      exact lookupFind_erase_self h2.lookup_nodup
    · have hfB2 : sideFind ((run ops).add_order o).bids o.price = some lvlB := by
        have hx := hfB
        rw [show (⟨o.price, (run ops).next_node, o.is_buy⟩ : OrderLocation).is_buy
          = o.is_buy from rfl, hbo] at hx
        exact hx
      have hrB := @sideRemove_eq bidLt _ o.price ((run ops).next_node) _ hfB2
      rw [cancel_order_buy h1 (by rw [hbo]) hrB]
      exact lookupFind_erase_self h2.lookup_nodup

/-- C8 witness: re-adding identity 1 overwrites its Location entry to point
at the new node (node 1) and leaves `totalOrders` unchanged. -/
theorem C8_witness :
    lookupFind (run [Op.add 1 true 100 10 0]).order_lookup 1 = some ⟨100, 0, true⟩ ∧
    lookupFind ((run [Op.add 1 true 100 10 0]).add_order ⟨1, true, 100, 5, 7⟩).order_lookup 1
      = some ⟨100, 1, true⟩ ∧
    ((run [Op.add 1 true 100 10 0]).add_order ⟨1, true, 100, 5, 7⟩).get_total_orders
      = (run [Op.add 1 true 100 10 0]).get_total_orders :=
  ⟨by decide,
    (C8_theorem [Op.add 1 true 100 10 0] ⟨1, true, 100, 5, 7⟩ ⟨100, 0, true⟩
      (by decide) (by decide)).1,
    (C8_theorem [Op.add 1 true 100 10 0] ⟨1, true, 100, 5, 7⟩ ⟨100, 0, true⟩
      (by decide) (by decide)).2.1⟩
